import Mathlib

/-!
# Matrix.hpp: a shallow embedding of the generic matrix class

The class `Matrix<T>` of `src/Matrix.hpp` is embedded as a record of its three
data members.  Exceptions are the `error` results of `Result`; the process-wide
flag `_isParallel` is passed explicitly to the two operators that read it.
`unsigned int` values are natural numbers below `UINT_RANGE`, and every
`unsigned int` product or sum the source computes is reduced modulo
`UINT_RANGE`.  Indexing a `std::vector` at or past its size has no defined
behaviour in C++; the embedding reports it as the result `UndefinedBehaviour`.
The compound assignments `+=` and `-=` of the element type are its `+` and `-`.
-/

namespace CppEx3

/-- Number of values of the type `unsigned int` (32 bits); its arithmetic wraps modulo this. -/
def UINT_RANGE : Nat := 4294967296

/-- The exception classes thrown by `Matrix<T>`, and the outcome of indexing the backing
vector outside its size. -/
inductive Exception where
  | IllegalMatrixException
  | IllegalVectorException
  | WrongDimensionsException
  | NoSquareException
  | OutOfMatrixException
  | UndefinedBehaviour
  deriving DecidableEq, Repr

/-- A computation that returns a value or throws. -/
abbrev Result (α : Type) := Except Exception α

/-- The loop `for (unsigned int i = 0; i < n; i++) body`, acting on the state `s`:
iterations run in increasing order of `i`, and the first one that throws ends the loop. -/
def forLoop {σ : Type} (n : Nat) (body : Nat → σ → Result σ) (s : σ) : Result σ :=
  match n with
  | 0 => .ok s
  | k + 1 =>
    match forLoop k body s with
    | .ok s1 => body k s1
    | .error e => .error e

/-- Reading `v[i]` of a `std::vector`. -/
def vecRead {T : Type} (v : List T) (i : Nat) : Result T :=
  match v[i]? with
  | some x => .ok x
  | none => .error .UndefinedBehaviour

/-- The data members of `Matrix<T>` (Matrix.hpp lines 220-222). -/
structure Matrix (T : Type) where
  _rows : Nat
  _cols : Nat
  _matrix : List T
  deriving Repr

section Operations

variable {T : Type} [Zero T] [Add T] [Sub T] [Mul T] [BEq T]

/-- Default constructor `Matrix()` (lines 256-260). -/
def Matrix.ctorDefault : Matrix T :=
  Matrix.mk 1 1 ([] ++ [0])

/-- Sized constructor `Matrix(rows, cols)` (lines 269-283): the loop pushes `T(0)` while
`i < rows * cols`, the product being an `unsigned int`. -/
def Matrix.ctorSized (rows cols : Nat) : Result (Matrix T) :=
  if (rows = 0 ∧ cols ≠ 0) ∨ (rows ≠ 0 ∧ cols = 0) then
    .error .IllegalMatrixException
  else
    match forLoop ((rows * cols) % UINT_RANGE) (fun _ v => .ok (v ++ [0])) [] with
    | .ok v => .ok (Matrix.mk rows cols v)
    | .error e => .error e

/-- Copy constructor (lines 290-294). -/
def Matrix.ctorCopy (other : Matrix T) : Matrix T :=
  Matrix.mk other._rows other._cols other._matrix

/-- Data constructor `Matrix(rows, cols, cells)` (lines 316-332). -/
def Matrix.ctorCells (rows cols : Nat) (cells : List T) : Result (Matrix T) :=
  if (rows = 0 ∧ cols ≠ 0) ∨ (rows ≠ 0 ∧ cols = 0) then
    .error .IllegalMatrixException
  else if cells.length ≠ (rows * cols) % UINT_RANGE then
    .error .IllegalVectorException
  else
    .ok (Matrix.mk rows cols cells)

/-- Read-only `operator()(row, col) const` (lines 606-614). -/
def Matrix.operator_call (M : Matrix T) (row col : Nat) : Result T :=
  if row > M._rows ∨ col > M._cols then
    .error .OutOfMatrixException
  else
    vecRead M._matrix ((M._cols * row + col) % UINT_RANGE)

/-- Mutable `operator()(row, col)` (lines 589-597).  The reference it returns is
represented by the position of the referred cell in `_matrix`. -/
def Matrix.operator_call_ref (M : Matrix T) (row col : Nat) : Result Nat :=
  if row > M._rows ∨ col > M._cols then
    .error .OutOfMatrixException
  else if (M._cols * row + col) % UINT_RANGE < M._matrix.length then
    .ok ((M._cols * row + col) % UINT_RANGE)
  else
    .error .UndefinedBehaviour

/-- Reading through the reference returned by the mutable `operator()`. -/
def Matrix.readRef (M : Matrix T) (row col : Nat) : Result T :=
  match M.operator_call_ref row col with
  | .ok p => vecRead M._matrix p
  | .error e => .error e

/-- The statement `M(row, col) = v`, through the mutable `operator()`. -/
def Matrix.assignCell (M : Matrix T) (row col : Nat) (v : T) : Result (Matrix T) :=
  match M.operator_call_ref row col with
  | .ok p => .ok (Matrix.mk M._rows M._cols (M._matrix.set p v))
  | .error e => .error e

/-- The statement `newMatrix._matrix[i] += other._matrix[i]` (line 392). -/
def addAt (other : Matrix T) (i : Nat) (newMatrix : Matrix T) : Result (Matrix T) :=
  match vecRead newMatrix._matrix i with
  | .error e => .error e
  | .ok x =>
    match vecRead other._matrix i with
    | .error e => .error e
    | .ok y =>
      .ok (Matrix.mk newMatrix._rows newMatrix._cols (newMatrix._matrix.set i (x + y)))

/-- The statement `newMatrix._matrix[i] -= other._matrix[i]` (line 417). -/
def subAt (other : Matrix T) (i : Nat) (newMatrix : Matrix T) : Result (Matrix T) :=
  match vecRead newMatrix._matrix i with
  | .error e => .error e
  | .ok x =>
    match vecRead other._matrix i with
    | .error e => .error e
    | .ok y =>
      .ok (Matrix.mk newMatrix._rows newMatrix._cols (newMatrix._matrix.set i (x - y)))

/-- Body of the loop of `_addParallel` (line 653):
`newMatrix(row, j) = (*this)(row, j) + other(row, j)`. -/
def addCell (this other : Matrix T) (row j : Nat) (newMatrix : Matrix T) : Result (Matrix T) :=
  match this.operator_call row j with
  | .error e => .error e
  | .ok a =>
    match other.operator_call row j with
    | .error e => .error e
    | .ok b => newMatrix.assignCell row j (a + b)

/-- Worker `_addParallel(other, newMatrix, row)` (lines 648-655). -/
def Matrix._addParallel (this other newMatrix : Matrix T) (row : Nat) : Result (Matrix T) :=
  forLoop newMatrix._cols (addCell this other row) newMatrix

/-- Body of the innermost loop of the product (lines 463 and 672):
`cell += (*this)(i, k) * other(k, j)`. -/
def dotStep (this other : Matrix T) (i j k : Nat) (cell : T) : Result T :=
  match this.operator_call i k with
  | .error e => .error e
  | .ok a =>
    match other.operator_call k j with
    | .error e => .error e
    | .ok b => .ok (cell + a * b)

/-- Body of the loop over `j` of the product (lines 460-465 and 669-674): the accumulator
starts at `T(0)`, runs over `k < _cols`, and is stored in `newMatrix(i, j)`. -/
def mulCell (this other : Matrix T) (i j : Nat) (newMatrix : Matrix T) : Result (Matrix T) :=
  match forLoop this._cols (dotStep this other i j) 0 with
  | .error e => .error e
  | .ok cell => newMatrix.assignCell i j cell

/-- Worker `_multParallel(other, newMatrix, row)` (lines 664-676). -/
def Matrix._multParallel (this other newMatrix : Matrix T) (row : Nat) : Result (Matrix T) :=
  forLoop newMatrix._cols (mulCell this other row) newMatrix

/-- The operator `operator+` (lines 366-397).  With the flag on, one worker per row is started
and all are joined; the workers are run here in increasing order of their row. -/
def Matrix.operator_plus (isParallel : Bool) (this other : Matrix T) : Result (Matrix T) :=
  if this._rows ≠ other._rows ∨ this._cols ≠ other._cols then
    .error .WrongDimensionsException
  else if isParallel then
    forLoop this._rows (fun i newMatrix => this._addParallel other newMatrix i)
      (Matrix.ctorCopy this)
  else
    forLoop ((this._rows * this._cols) % UINT_RANGE) (addAt other) (Matrix.ctorCopy this)

/-- The operator `operator-` (lines 406-421). -/
def Matrix.operator_minus (this other : Matrix T) : Result (Matrix T) :=
  if this._rows ≠ other._rows ∨ this._cols ≠ other._cols then
    .error .WrongDimensionsException
  else
    forLoop ((this._rows * this._cols) % UINT_RANGE) (subAt other) (Matrix.ctorCopy this)

/-- The operator `operator*` (lines 432-471). -/
def Matrix.operator_mul (isParallel : Bool) (this other : Matrix T) : Result (Matrix T) :=
  if this._cols ≠ other._rows then
    .error .WrongDimensionsException
  else
    match Matrix.ctorSized this._rows other._cols with
    | .error e => .error e
    | .ok newMatrix =>
      if isParallel then
        forLoop this._rows (fun i nm => this._multParallel other nm i) newMatrix
      else
        forLoop newMatrix._rows
          (fun i nm => forLoop nm._cols (mulCell this other i) nm) newMatrix

/-- The operator `operator==` (lines 478-487): the comparison of the two backing vectors. -/
def Matrix.operator_eq (this other : Matrix T) : Bool :=
  if this._matrix == other._matrix then true else false

/-- The operator `operator!=` (lines 494-498). -/
def Matrix.operator_ne (this other : Matrix T) : Bool :=
  !(this.operator_eq other)

/-- Generic `trans()` (lines 505-518). -/
def Matrix.trans (this : Matrix T) : Result (Matrix T) :=
  match Matrix.ctorSized this._cols this._rows with
  | .error e => .error e
  | .ok newMatrix =>
    forLoop newMatrix._rows
      (fun i nm => forLoop nm._cols
        (fun j nm1 =>
          match this.operator_call j i with
          | .error e => .error e
          | .ok v => nm1.assignCell i j v) nm) newMatrix

/-- Copy assignment `operator=` (lines 350-357): the value of `*this` after the assignment. -/
def Matrix.operator_assign (_this other : Matrix T) : Matrix T :=
  Matrix.mk other._rows other._cols other._matrix

/-- Specialisation `Matrix<Complex>::trans()` (lines 525-538).  The class of `Complex.h` is
not among the sources; its member function `conj()` is the parameter `conj`. -/
def Matrix.transComplex (conj : T → T) (this : Matrix T) : Result (Matrix T) :=
  match Matrix.ctorSized this._cols this._rows with
  | .error e => .error e
  | .ok newMatrix =>
    forLoop newMatrix._rows
      (fun i nm => forLoop nm._cols
        (fun j nm1 =>
          match this.operator_call j i with
          | .error e => .error e
          | .ok v => nm1.assignCell i j (conj v)) nm) newMatrix

/-- The member function `trace()` (lines 545-559). -/
def Matrix.trace (this : Matrix T) : Result T :=
  if this._rows ≠ this._cols then
    .error .NoSquareException
  else
    forLoop this._rows
      (fun i trace =>
        match this.operator_call i i with
        | .error e => .error e
        | .ok v => .ok (trace + v)) 0

/-- What `setParallel` reads and writes: the static member `_isParallel` and the text sent to
`std::cout` so far. -/
structure ModeState where
  _isParallel : Bool
  cout : String

/-- The state at program start: `_isParallel` is initialised to `false` (line 249). -/
def ModeState.initial : ModeState :=
  ModeState.mk false ""

/-- The static member function `setParallel(isParallel)` (lines 621-638). -/
def Matrix.setParallel (isParallel : Bool) (st : ModeState) : ModeState :=
  if isParallel != st._isParallel then
    ModeState.mk isParallel
      (((st.cout ++ "Generic Matrix mode changed to ") ++
        (if isParallel then "parallel" else "non-parallel")) ++ " mode." ++ "\n")
  else
    ModeState.mk isParallel st.cout

/-- The row workers of a parallel operator run to completion one after the other, in the
order given by the list of their rows. -/
def runWorkers (worker : Nat → Matrix T → Result (Matrix T)) :
    List Nat → Matrix T → Result (Matrix T)
  | [], newMatrix => .ok newMatrix
  | row :: rest, newMatrix =>
    match worker row newMatrix with
    | .ok nm => runWorkers worker rest nm
    | .error e => .error e

/-- Storage invariants of the data model: no dimension is zero alone, and the backing vector
holds exactly `rows * cols` elements. -/
def Matrix.storageInv (M : Matrix T) : Prop :=
  (M._rows = 0 ↔ M._cols = 0) ∧ M._matrix.length = M._rows * M._cols

/-- What the types of the data members and the constructors give for every object: both
dimensions are `unsigned int` values, and the backing vector has the length the constructors
compute, the `unsigned int` product of the dimensions. -/
def Matrix.machine (M : Matrix T) : Prop :=
  M._rows < UINT_RANGE ∧ M._cols < UINT_RANGE ∧
    M._matrix.length = (M._rows * M._cols) % UINT_RANGE

instance (M : Matrix T) : Decidable M.storageInv := by
  unfold Matrix.storageInv; exact inferInstance

instance (M : Matrix T) : Decidable M.machine := by
  unfold Matrix.machine; exact inferInstance

/-- The element stored at the linear index `row * cols + col` (`T(0)` past the storage). -/
def Matrix.cell (M : Matrix T) (row col : Nat) : T :=
  M._matrix.getD (row * M._cols + col) 0

/-- The sum over `k < A.cols` of `A(i,k) * B(k,j)`, accumulated from `T(0)` in increasing `k`. -/
def dotSum (A B : Matrix T) (i j : Nat) : T :=
  (List.range A._cols).foldl (fun acc k => acc + A.cell i k * B.cell k j) 0

/-- The sum of the diagonal elements `M(i,i)`, `i < rows`, accumulated from `T(0)`. -/
def diagSum (M : Matrix T) : T :=
  (List.range M._rows).foldl (fun acc i => acc + M.cell i i) 0

/-- Frame of a row worker: `nm2` has the dimensions and the element count of `nm`, and agrees
with it at every storage position outside `row * cols .. row * cols + cols - 1`. -/
def RowFrame (row : Nat) (nm nm2 : Matrix T) : Prop :=
  nm2._rows = nm._rows ∧ nm2._cols = nm._cols ∧ nm2._matrix.length = nm._matrix.length ∧
    ∀ p : Nat, (p < row * nm._cols ∨ row * nm._cols + nm._cols ≤ p) →
      nm2._matrix[p]? = nm._matrix[p]?

/-- State of a fill in progress: the matrix has `r * c` elements and every cell before
`(i, j)` in row-major order holds its final value `f`. -/
def FilledTo (r c : Nat) (f : Nat → Nat → T) (i j : Nat) (nm : Matrix T) : Prop :=
  nm._rows = r ∧ nm._cols = c ∧ nm._matrix.length = r * c ∧
    ∀ i2 j2, i2 < r → j2 < c → (i2 < i ∨ (i2 = i ∧ j2 < j)) →
      nm._matrix[c * i2 + j2]? = some (f i2 j2)

/-- The statement `newMatrix._matrix[i] = op(newMatrix._matrix[i], other._matrix[i])`, the
common shape of lines 392 and 417. -/
def zipAt (op : T → T → T) (other : Matrix T) (i : Nat) (newMatrix : Matrix T) :
    Result (Matrix T) :=
  match vecRead newMatrix._matrix i with
  | .error e => .error e
  | .ok x =>
    match vecRead other._matrix i with
    | .error e => .error e
    | .ok y =>
      .ok (Matrix.mk newMatrix._rows newMatrix._cols (newMatrix._matrix.set i (op x y)))

end Operations


/-! ## Loops -/

section Loops

variable {σ : Type}

theorem forLoop_succ (n : Nat) (body : Nat → σ → Result σ) (s : σ) :
    forLoop (n + 1) body s =
      (match forLoop n body s with
       | .ok s1 => body n s1
       | .error e => .error e) := rfl

/-- Invariant rule: a loop whose iterations all return, each carrying the invariant one step on,
returns in a state that satisfies the invariant at the bound. -/
theorem forLoop_inv (P : Nat → σ → Prop) (n : Nat) (body : Nat → σ → Result σ) (s : σ)
    (h0 : P 0 s)
    (hstep : ∀ k s1, k < n → P k s1 → ∃ s2, body k s1 = .ok s2 ∧ P (k + 1) s2) :
    ∃ s', forLoop n body s = .ok s' ∧ P n s' := by
  induction n with
  | zero => exact ⟨s, rfl, h0⟩
  | succ m ih =>
    obtain ⟨s1, h1, hP⟩ := ih (fun k s1 hk hp => hstep k s1 (Nat.lt_succ_of_lt hk) hp)
    obtain ⟨s2, h2, hP2⟩ := hstep m s1 (Nat.lt_succ_self m) hP
    exact ⟨s2, by rw [forLoop_succ, h1]; exact h2, hP2⟩

/-- Once an iteration has thrown, the loop has thrown. -/
theorem forLoop_error_mono (body : Nat → σ → Result σ) (s : σ) (e : Exception) (k n : Nat)
    (hk : k ≤ n) (h : forLoop k body s = .error e) : forLoop n body s = .error e := by
  induction n with
  | zero =>
    have : k = 0 := Nat.le_zero.mp hk
    subst this; exact h
  | succ m ih =>
    rcases Nat.lt_or_ge k (m + 1) with hlt | hge
    · rw [forLoop_succ, ih (Nat.lt_succ_iff.mp hlt)]
    · have : k = m + 1 := Nat.le_antisymm hk hge
      subst this; exact h

/-- A loop of at least one iteration whose first iteration throws has thrown. -/
theorem forLoop_first_error (body : Nat → σ → Result σ) (s : σ) (e : Exception)
    (n : Nat) (hn : 0 < n) (h : body 0 s = .error e) : forLoop n body s = .error e :=
  forLoop_error_mono body s e 1 n hn h

/-- A loop throws only what one of its iterations throws. -/
theorem forLoop_ne_error (body : Nat → σ → Result σ) (e : Exception)
    (hbody : ∀ i s, body i s ≠ .error e) (n : Nat) (s : σ) :
    forLoop n body s ≠ .error e := by
  induction n with
  | zero => intro h; cases h
  | succ m ih =>
    rw [forLoop_succ]
    cases hm : forLoop m body s with
    | ok s1 => exact hbody m s1
    | error e1 =>
      intro h
      apply ih
      rw [hm]; exact h

/-- Two loops with the same bound whose bodies agree on every state are the same loop. -/
theorem forLoop_congr (n : Nat) (b1 b2 : Nat → σ → Result σ) (s : σ)
    (h : ∀ i s1, i < n → b1 i s1 = b2 i s1) : forLoop n b1 s = forLoop n b2 s := by
  induction n with
  | zero => rfl
  | succ m ih =>
    rw [forLoop_succ, forLoop_succ, ih (fun i s1 hi => h i s1 (Nat.lt_succ_of_lt hi))]
    cases forLoop m b2 s with
    | ok s1 => exact h m s1 (Nat.lt_succ_self m)
    | error e => rfl

/-- A loop that returns has returned from every shorter run. -/
theorem forLoop_ok_prefix (body : Nat → σ → Result σ) (s : σ) (n : Nat) (R : σ)
    (h : forLoop n body s = .ok R) (k : Nat) (hk : k ≤ n) :
    ∃ sk, forLoop k body s = .ok sk := by
  cases hrun : forLoop k body s with
  | ok sk => exact ⟨sk, rfl⟩
  | error e =>
    rw [forLoop_error_mono body s e k n hk hrun] at h
    cases h

/-- A property carried on by every iteration that returns holds when the loop returns. -/
theorem forLoop_ok_inv (I : σ → Prop) (n : Nat) (body : Nat → σ → Result σ) (s : σ)
    (h0 : I s) (hpres : ∀ k s1 s2, k < n → I s1 → body k s1 = .ok s2 → I s2)
    (R : σ) (h : forLoop n body s = .ok R) : I R := by
  induction n generalizing R with
  | zero =>
    injection h with h
    rw [← h]; exact h0
  | succ m ih =>
    rw [forLoop_succ] at h
    cases hm : forLoop m body s with
    | ok s1 =>
      rw [hm] at h
      exact hpres m s1 R (Nat.lt_succ_self m)
        (ih (fun k a b hk => hpres k a b (Nat.lt_succ_of_lt hk)) s1 hm) h
    | error e =>
      rw [hm] at h
      cases h

/-- A loop one of whose iterations throws from every state it can be entered in does not
return. -/
theorem forLoop_fails (I : σ → Prop) (n : Nat) (body : Nat → σ → Result σ) (s : σ)
    (h0 : I s) (hpres : ∀ k s1 s2, k < n → I s1 → body k s1 = .ok s2 → I s2)
    (k : Nat) (hk : k < n) (hfail : ∀ s1 s2, I s1 → body k s1 ≠ .ok s2) (R : σ) :
    forLoop n body s ≠ .ok R := by
  intro h
  obtain ⟨sk, hsk⟩ := forLoop_ok_prefix body s n R h k (Nat.le_of_lt hk)
  obtain ⟨sk1, hsk1⟩ := forLoop_ok_prefix body s n R h (k + 1) hk
  have hI : I sk := forLoop_ok_inv I k body s h0
    (fun j a b hj => hpres j a b (Nat.lt_trans hj hk)) sk hsk
  rw [forLoop_succ, hsk] at hsk1
  exact hfail sk sk1 hI hsk1

/-- The exception a loop throws is one that an iteration throws from a state the loop can be
in. -/
theorem forLoop_error_inv (I : σ → Prop) (Q : Exception → Prop) (n : Nat)
    (body : Nat → σ → Result σ) (s : σ) (h0 : I s)
    (hpres : ∀ k s1 s2, k < n → I s1 → body k s1 = .ok s2 → I s2)
    (herr : ∀ k s1 e, k < n → I s1 → body k s1 = .error e → Q e)
    (e : Exception) (h : forLoop n body s = .error e) : Q e := by
  induction n with
  | zero => cases h
  | succ m ih =>
    rw [forLoop_succ] at h
    cases hm : forLoop m body s with
    | ok s1 =>
      rw [hm] at h
      exact herr m s1 e (Nat.lt_succ_self m)
        (forLoop_ok_inv I m body s h0
          (fun k a b hk => hpres k a b (Nat.lt_succ_of_lt hk)) s1 hm) h
    | error e1 =>
      rw [hm] at h
      injection h with h
      subst h
      exact ih (fun k a b hk => hpres k a b (Nat.lt_succ_of_lt hk))
        (fun k a e2 hk => herr k a e2 (Nat.lt_succ_of_lt hk)) hm

end Loops

/-! ## Index arithmetic -/

theorem uint_range_eq : UINT_RANGE = 4294967296 := rfl

/-- The linear index of an in-range cell is below the element count. -/
theorem index_lt {r c i j : Nat} (hi : i < r) (hj : j < c) : c * i + j < r * c := by
  have h1 : c * i + c ≤ c * r := by
    have : c * (i + 1) ≤ c * r := Nat.mul_le_mul_left c hi
    simpa [Nat.mul_succ] using this
  have h2 : c * r = r * c := Nat.mul_comm c r
  omega

/-- The unsigned index computation does not wrap on an in-range cell. -/
theorem index_mod {r c i j : Nat} (hrc : r * c < UINT_RANGE) (hi : i < r) (hj : j < c) :
    (c * i + j) % UINT_RANGE = c * i + j :=
  Nat.mod_eq_of_lt (Nat.lt_trans (index_lt hi hj) hrc)

/-- Distinct in-range cells have distinct linear indices. -/
theorem index_inj {c i j i2 j2 : Nat} (hj : j < c) (hj2 : j2 < c)
    (h : c * i + j = c * i2 + j2) : i = i2 ∧ j = j2 := by
  have hc : 0 < c := Nat.lt_of_le_of_lt (Nat.zero_le j) hj
  have e1 : (c * i + j) / c = i := by
    rw [Nat.mul_add_div hc, Nat.div_eq_of_lt hj, Nat.add_zero]
  have e2 : (c * i2 + j2) / c = i2 := by
    rw [Nat.mul_add_div hc, Nat.div_eq_of_lt hj2, Nat.add_zero]
  have hi : i = i2 := by rw [← e1, ← e2, h]
  subst hi
  exact ⟨rfl, by omega⟩

/-- Every storage position below `r * c` is the linear index of an in-range cell. -/
theorem index_split {r c p : Nat} (hp : p < r * c) :
    p / c < r ∧ p % c < c ∧ c * (p / c) + p % c = p := by
  have hc : 0 < c := by
    rcases Nat.eq_zero_or_pos c with h | h
    · subst h; simp at hp
    · exact h
  refine ⟨?_, Nat.mod_lt p hc, Nat.div_add_mod p c⟩
  exact (Nat.div_lt_iff_lt_mul hc).mpr hp

/-! ## Element access on a well-formed matrix -/

section Access

variable {T : Type}

theorem vecRead_of_getElem? {v : List T} {i : Nat} {x : T} (h : v[i]? = some x) :
    vecRead v i = .ok x := by
  unfold vecRead; rw [h]

/-- A matrix that satisfies the storage invariants and is an object of the program has an
element count that fits `unsigned int`. -/
theorem Matrix.count_lt {M : Matrix T} (hm : M.machine) (hs : M.storageInv) :
    M._rows * M._cols < UINT_RANGE := by
  have h1 := hm.2.2
  have h2 := hs.2
  have h3 : (M._rows * M._cols) % UINT_RANGE < UINT_RANGE :=
    Nat.mod_lt _ (by rw [uint_range_eq]; decide)
  omega

/-- The read-only accessor on an in-range cell of a matrix of `r * c` elements. -/
theorem Matrix.operator_call_of_dims [Zero T] {M : Matrix T} {r c i j : Nat}
    (hr : M._rows = r) (hc : M._cols = c) (hlen : M._matrix.length = r * c)
    (hrc : r * c < UINT_RANGE) (hi : i < r) (hj : j < c) :
    M._matrix[c * i + j]? = some (M.cell i j) ∧ M.operator_call i j = .ok (M.cell i j) := by
  have hlt : c * i + j < M._matrix.length := by rw [hlen]; exact index_lt hi hj
  have hget : M._matrix[c * i + j]? = some (M.cell i j) := by
    unfold Matrix.cell
    rw [hc, Nat.mul_comm i c, List.getD_eq_getElem?_getD, List.getElem?_eq_getElem hlt]
    rfl
  refine ⟨hget, ?_⟩
  unfold Matrix.operator_call
  rw [hr, hc, if_neg (by omega), index_mod hrc hi hj]
  exact vecRead_of_getElem? hget

/-- The read-only accessor on an in-range cell of a well-formed matrix returns the stored
element. -/
theorem Matrix.operator_call_in_range [Zero T] {M : Matrix T} (hm : M.machine)
    (hs : M.storageInv) {i j : Nat} (hi : i < M._rows) (hj : j < M._cols) :
    M.operator_call i j = .ok (M.cell i j) :=
  (Matrix.operator_call_of_dims rfl rfl hs.2 (Matrix.count_lt hm hs) hi hj).2

/-- The mutable accessor on an in-range cell refers to the position `c * i + j`. -/
theorem Matrix.operator_call_ref_of_dims {M : Matrix T} {r c i j : Nat}
    (hr : M._rows = r) (hc : M._cols = c) (hlen : M._matrix.length = r * c)
    (hrc : r * c < UINT_RANGE) (hi : i < r) (hj : j < c) :
    M.operator_call_ref i j = .ok (c * i + j) := by
  have hlt : c * i + j < M._matrix.length := by rw [hlen]; exact index_lt hi hj
  unfold Matrix.operator_call_ref
  rw [hr, hc, if_neg (by omega), index_mod hrc hi hj, if_pos hlt]

/-- Assignment to an in-range cell replaces the element at position `c * i + j`. -/
theorem Matrix.assignCell_of_dims {M : Matrix T} {r c i j : Nat}
    (hr : M._rows = r) (hc : M._cols = c) (hlen : M._matrix.length = r * c)
    (hrc : r * c < UINT_RANGE) (hi : i < r) (hj : j < c) (v : T) :
    M.assignCell i j v = .ok (Matrix.mk r c (M._matrix.set (c * i + j) v)) := by
  unfold Matrix.assignCell
  rw [Matrix.operator_call_ref_of_dims hr hc hlen hrc hi hj, hr, hc]

/-- On an in-range cell the read-only accessor reads the storage at `c * i + j`. -/
theorem Matrix.operator_call_eq_vecRead {M : Matrix T} {r c i j : Nat}
    (hr : M._rows = r) (hc : M._cols = c)
    (hrc : r * c < UINT_RANGE) (hi : i < r) (hj : j < c) :
    M.operator_call i j = vecRead M._matrix (c * i + j) := by
  unfold Matrix.operator_call
  rw [hr, hc, if_neg (by omega), index_mod hrc hi hj]

/-- On an in-range cell, reading through the mutable accessor reads the storage at
`c * i + j`. -/
theorem Matrix.readRef_eq_vecRead {M : Matrix T} {r c i j : Nat}
    (hr : M._rows = r) (hc : M._cols = c) (hlen : M._matrix.length = r * c)
    (hrc : r * c < UINT_RANGE) (hi : i < r) (hj : j < c) :
    M.readRef i j = vecRead M._matrix (c * i + j) := by
  unfold Matrix.readRef
  rw [Matrix.operator_call_ref_of_dims hr hc hlen hrc hi hj]

/-- The read-only accessor throws `OutOfMatrixException` or indexes outside the storage,
nothing else. -/
theorem Matrix.operator_call_error {M : Matrix T} {i j : Nat} {e : Exception}
    (h : M.operator_call i j = .error e) :
    e = .OutOfMatrixException ∨ e = .UndefinedBehaviour := by
  unfold Matrix.operator_call at h
  split at h
  · injection h with h; exact Or.inl h.symm
  · unfold vecRead at h
    split at h
    · cases h
    · injection h with h; exact Or.inr h.symm

/-- An assignment that returns has kept the dimensions and the element count. -/
theorem Matrix.assignCell_ok_dims {M M2 : Matrix T} {i j : Nat} {v : T}
    (h : M.assignCell i j v = .ok M2) :
    M2._rows = M._rows ∧ M2._cols = M._cols ∧ M2._matrix.length = M._matrix.length := by
  unfold Matrix.assignCell at h
  split at h
  · injection h with h
    subst h
    exact ⟨rfl, rfl, by simp⟩
  · cases h

/-- The value of a cell whose storage position is known. -/
theorem Matrix.cell_of_getElem? [Zero T] {M : Matrix T} {c i j : Nat} {x : T}
    (hc : M._cols = c) (h : M._matrix[c * i + j]? = some x) : M.cell i j = x := by
  unfold Matrix.cell
  rw [hc, Nat.mul_comm i c, List.getD_eq_getElem?_getD, h]
  rfl

/-- A matrix of known dimensions, element count and cells is well formed. -/
theorem Matrix.wf_of_cells [Zero T] {M : Matrix T} {r c : Nat} {f : Nat → Nat → T}
    (hr : M._rows = r) (hc : M._cols = c) (hlen : M._matrix.length = r * c)
    (hrl : r < UINT_RANGE) (hcl : c < UINT_RANGE) (hrc : r * c < UINT_RANGE)
    (hz : r = 0 ↔ c = 0)
    (hcells : ∀ i j, i < r → j < c → M._matrix[c * i + j]? = some (f i j)) :
    M.machine ∧ M.storageInv ∧ ∀ i j, i < r → j < c → M.cell i j = f i j := by
  refine ⟨⟨by rw [hr]; exact hrl, by rw [hc]; exact hcl, ?_⟩, ⟨by rw [hr, hc]; exact hz, ?_⟩, ?_⟩
  · rw [hr, hc, Nat.mod_eq_of_lt hrc]; exact hlen
  · rw [hr, hc]; exact hlen
  · intro i j hi hj
    exact Matrix.cell_of_getElem? hc (hcells i j hi hj)

end Access

/-! ## Loops that fill a matrix cell by cell -/

section Fill

variable {T : Type}

/-- One row of a fill: the loop over the columns of row `i`. -/
theorem fill_row (r c : Nat) (f : Nat → Nat → T) (hrc : r * c < UINT_RANGE)
    (i : Nat) (hi : i < r) (body : Nat → Matrix T → Result (Matrix T))
    (hbody : ∀ j nm, j < c → nm._rows = r → nm._cols = c → nm._matrix.length = r * c →
      body j nm = nm.assignCell i j (f i j))
    (nm : Matrix T) (h : FilledTo r c f i 0 nm) :
    ∃ nm2, forLoop nm._cols body nm = .ok nm2 ∧ FilledTo r c f (i + 1) 0 nm2 := by
  have hcols : nm._cols = c := h.2.1
  rw [hcols]
  obtain ⟨nm2, hrun, hfin⟩ := forLoop_inv (fun j s => FilledTo r c f i j s) c body nm h (by
    intro j s1 hj hs1
    obtain ⟨h1, h2, h3, h4⟩ := hs1
    refine ⟨Matrix.mk r c (s1._matrix.set (c * i + j) (f i j)), ?_, ?_⟩
    · rw [hbody j s1 hj h1 h2 h3]
      exact Matrix.assignCell_of_dims h1 h2 h3 hrc hi hj (f i j)
    · refine ⟨rfl, rfl, ?_, ?_⟩
      · simp [h3]
      · intro i2 j2 hi2 hj2 hbefore
        by_cases hsame : i2 = i ∧ j2 = j
        · obtain ⟨e1, e2⟩ := hsame
          subst e1; subst e2
          have hlt : c * i2 + j2 < s1._matrix.length := by rw [h3]; exact index_lt hi2 hj2
          simp [List.getElem?_set, hlt]
        · have hne : c * i + j ≠ c * i2 + j2 := by
            intro heq
            obtain ⟨e1, e2⟩ := index_inj hj hj2 heq
            exact hsame ⟨e1.symm, e2.symm⟩
          have hold : s1._matrix[c * i2 + j2]? = some (f i2 j2) := by
            apply h4 i2 j2 hi2 hj2
            rcases hbefore with hb | ⟨hb1, hb2⟩
            · exact Or.inl hb
            · refine Or.inr ⟨hb1, ?_⟩
              have : j2 ≠ j := fun e => hsame ⟨hb1, e⟩
              omega
          simp only [List.getElem?_set, if_neg hne]
          exact hold)
  refine ⟨nm2, hrun, hfin.1, hfin.2.1, hfin.2.2.1, ?_⟩
  intro i2 j2 hi2 hj2 hbefore
  apply hfin.2.2.2 i2 j2 hi2 hj2
  rcases hbefore with hb | ⟨_, hb⟩
  · rcases Nat.lt_or_ge i2 i with hlt | hge
    · exact Or.inl hlt
    · exact Or.inr ⟨by omega, hj2⟩
  · omega

/-- The two nested loops of a fill return a matrix of the same dimensions whose cell `(i, j)`
holds `f i j`, for every in-range `(i, j)`. -/
theorem fill_loops (r c : Nat) (f : Nat → Nat → T) (hrc : r * c < UINT_RANGE)
    (body : Nat → Nat → Matrix T → Result (Matrix T))
    (hbody : ∀ i j nm, i < r → j < c → nm._rows = r → nm._cols = c →
      nm._matrix.length = r * c → body i j nm = nm.assignCell i j (f i j))
    (nm : Matrix T) (hr : nm._rows = r) (hc : nm._cols = c)
    (hlen : nm._matrix.length = r * c) :
    ∃ R, forLoop r (fun i s => forLoop s._cols (body i) s) nm = .ok R ∧
      R._rows = r ∧ R._cols = c ∧ R._matrix.length = r * c ∧
      ∀ i j, i < r → j < c → R._matrix[c * i + j]? = some (f i j) := by
  obtain ⟨R, hrun, hfin⟩ := forLoop_inv (fun i s => FilledTo r c f i 0 s) r
    (fun i s => forLoop s._cols (body i) s) nm
    ⟨hr, hc, hlen, by intro i2 j2 _ _ hb; omega⟩
    (by
      intro i s1 hi hs1
      exact fill_row r c f hrc i hi (body i)
        (fun j s hj h1 h2 h3 => hbody i j s hi hj h1 h2 h3) s1 hs1)
  refine ⟨R, hrun, hfin.1, hfin.2.1, hfin.2.2.1, ?_⟩
  intro i j hi hj
  exact hfin.2.2.2 i j hi hj (Or.inl hi)

/-- Two matrices of the same dimensions and element count whose in-range cells hold the same
values are the same matrix. -/
theorem Matrix.ext_cells {A B : Matrix T} {r c : Nat} {f : Nat → Nat → T}
    (hAr : A._rows = r) (hAc : A._cols = c) (hAl : A._matrix.length = r * c)
    (hA : ∀ i j, i < r → j < c → A._matrix[c * i + j]? = some (f i j))
    (hBr : B._rows = r) (hBc : B._cols = c) (hBl : B._matrix.length = r * c)
    (hB : ∀ i j, i < r → j < c → B._matrix[c * i + j]? = some (f i j)) : A = B := by
  cases A with
  | mk ar ac am =>
    cases B with
    | mk br bc bm =>
      simp only at hAr hAc hAl hA hBr hBc hBl hB
      have hm : am = bm := by
        apply List.ext_getElem?
        intro p
        rcases Nat.lt_or_ge p (r * c) with hp | hp
        · obtain ⟨h1, h2, h3⟩ := index_split hp
          rw [← h3, hA _ _ h1 h2, hB _ _ h1 h2]
        · rw [List.getElem?_eq_none (by omega), List.getElem?_eq_none (by omega)]
      rw [hAr, hAc, hBr, hBc, hm]

/-- Two well-formed matrices of the same dimensions whose in-range cells are equal are the
same matrix. -/
theorem Matrix.eq_of_cells [Zero T] {A B : Matrix T}
    (hAm : A.machine) (hAs : A.storageInv) (hBm : B.machine) (hBs : B.storageInv)
    (hr : A._rows = B._rows) (hc : A._cols = B._cols)
    (h : ∀ i j, i < A._rows → j < A._cols → A.cell i j = B.cell i j) : A = B := by
  apply Matrix.ext_cells (r := A._rows) (c := A._cols) (f := fun i j => A.cell i j)
    rfl rfl hAs.2
    (fun i j hi hj =>
      (Matrix.operator_call_of_dims rfl rfl hAs.2 (Matrix.count_lt hAm hAs) hi hj).1)
    hr.symm hc.symm (by rw [hBs.2, hr, hc])
  intro i j hi hj
  have hB := (Matrix.operator_call_of_dims (M := B) rfl rfl hBs.2
    (Matrix.count_lt hBm hBs) (hr ▸ hi) (hc ▸ hj)).1
  rw [hc, hB, h i j hi hj]

end Fill

/-! ## Constructors -/

section Constructors

variable {T : Type}

/-- The loop of the sized constructor pushes `n` zeros. -/
theorem pushLoop_eq [Zero T] (n : Nat) :
    forLoop n (fun _ (v : List T) => .ok (v ++ [0])) [] = .ok (List.replicate n (0 : T)) := by
  induction n with
  | zero => rfl
  | succ m ih => rw [forLoop_succ, ih, List.replicate_succ']

/-- The sized constructor, when its guard passes, yields zeros, as many as the `unsigned int`
product of the dimensions. -/
theorem Matrix.ctorSized_ok [Zero T] (rows cols : Nat)
    (h : ¬ ((rows = 0 ∧ cols ≠ 0) ∨ (rows ≠ 0 ∧ cols = 0))) :
    (Matrix.ctorSized rows cols : Result (Matrix T)) =
      .ok (Matrix.mk rows cols (List.replicate ((rows * cols) % UINT_RANGE) 0)) := by
  unfold Matrix.ctorSized
  rw [if_neg h, pushLoop_eq]

/-- The sized constructor, applied to `unsigned int` arguments, builds an object whose
storage length is the `unsigned int` product of its dimensions. -/
theorem Matrix.ctorSized_machine [Zero T] {rows cols : Nat} {M : Matrix T}
    (hr : rows < UINT_RANGE) (hc : cols < UINT_RANGE)
    (h : Matrix.ctorSized rows cols = .ok M) : M.machine := by
  by_cases hz : (rows = 0 ∧ cols ≠ 0) ∨ (rows ≠ 0 ∧ cols = 0)
  · unfold Matrix.ctorSized at h
    rw [if_pos hz] at h
    cases h
  · rw [Matrix.ctorSized_ok rows cols hz] at h
    injection h with h
    subst h
    exact ⟨hr, hc, List.length_replicate _ _⟩

/-- The data constructor, applied to `unsigned int` arguments, builds an object whose storage
length is the `unsigned int` product of its dimensions. -/
theorem Matrix.ctorCells_machine {rows cols : Nat} {cells : List T} {M : Matrix T}
    (hr : rows < UINT_RANGE) (hc : cols < UINT_RANGE)
    (h : Matrix.ctorCells rows cols cells = .ok M) : M.machine := by
  unfold Matrix.ctorCells at h
  split_ifs at h with h1 h2
  injection h with h
  subst h
  exact ⟨hr, hc, not_not.mp h2⟩

end Constructors

/-! ## Which exceptions the operations can throw -/

section Thrown

variable {T : Type}

theorem vecRead_ne_wrong (v : List T) (i : Nat) :
    vecRead v i ≠ .error .WrongDimensionsException := by
  unfold vecRead
  split <;> intro h <;> cases h

theorem Matrix.operator_call_ne_wrong (M : Matrix T) (i j : Nat) :
    M.operator_call i j ≠ .error .WrongDimensionsException := by
  unfold Matrix.operator_call
  split
  · intro h; cases h
  · exact vecRead_ne_wrong _ _

theorem Matrix.assignCell_ne_wrong (M : Matrix T) (i j : Nat) (v : T) :
    M.assignCell i j v ≠ .error .WrongDimensionsException := by
  unfold Matrix.assignCell Matrix.operator_call_ref
  split_ifs <;> intro h <;> cases h

theorem addAt_ne_wrong [Add T] (other : Matrix T) (i : Nat) (nm : Matrix T) :
    addAt other i nm ≠ .error .WrongDimensionsException := by
  unfold addAt
  cases h1 : vecRead nm._matrix i with
  | error e =>
    intro h
    injection h with h
    subst h
    exact vecRead_ne_wrong _ _ h1
  | ok x =>
    cases h2 : vecRead other._matrix i with
    | error e =>
      intro h
      injection h with h
      subst h
      exact vecRead_ne_wrong _ _ h2
    | ok y => intro h; cases h

theorem subAt_ne_wrong [Sub T] (other : Matrix T) (i : Nat) (nm : Matrix T) :
    subAt other i nm ≠ .error .WrongDimensionsException := by
  unfold subAt
  cases h1 : vecRead nm._matrix i with
  | error e =>
    intro h
    injection h with h
    subst h
    exact vecRead_ne_wrong _ _ h1
  | ok x =>
    cases h2 : vecRead other._matrix i with
    | error e =>
      intro h
      injection h with h
      subst h
      exact vecRead_ne_wrong _ _ h2
    | ok y => intro h; cases h

theorem addCell_ne_wrong [Add T] (A B : Matrix T) (i j : Nat) (nm : Matrix T) :
    addCell A B i j nm ≠ .error .WrongDimensionsException := by
  unfold addCell
  cases h1 : A.operator_call i j with
  | error e =>
    intro h
    injection h with h
    subst h
    exact Matrix.operator_call_ne_wrong _ _ _ h1
  | ok a =>
    cases h2 : B.operator_call i j with
    | error e =>
      intro h
      injection h with h
      subst h
      exact Matrix.operator_call_ne_wrong _ _ _ h2
    | ok b => exact Matrix.assignCell_ne_wrong _ _ _ _

theorem dotStep_ne_wrong [Add T] [Mul T] (A B : Matrix T) (i j k : Nat) (cell : T) :
    dotStep A B i j k cell ≠ .error .WrongDimensionsException := by
  unfold dotStep
  cases h1 : A.operator_call i k with
  | error e =>
    intro h
    injection h with h
    subst h
    exact Matrix.operator_call_ne_wrong _ _ _ h1
  | ok a =>
    cases h2 : B.operator_call k j with
    | error e =>
      intro h
      injection h with h
      subst h
      exact Matrix.operator_call_ne_wrong _ _ _ h2
    | ok b => intro h; cases h

theorem mulCell_ne_wrong [Zero T] [Add T] [Mul T] (A B : Matrix T) (i j : Nat) (nm : Matrix T) :
    mulCell A B i j nm ≠ .error .WrongDimensionsException := by
  unfold mulCell
  cases h1 : forLoop A._cols (dotStep A B i j) 0 with
  | error e =>
    intro h
    injection h with h
    subst h
    exact forLoop_ne_error _ _ (fun k c => dotStep_ne_wrong A B i j k c) _ _ h1
  | ok cell => exact Matrix.assignCell_ne_wrong _ _ _ _

theorem Matrix.ctorSized_ne_wrong [Zero T] (rows cols : Nat) :
    (Matrix.ctorSized rows cols : Result (Matrix T)) ≠ .error .WrongDimensionsException := by
  by_cases h : (rows = 0 ∧ cols ≠ 0) ∨ (rows ≠ 0 ∧ cols = 0)
  · unfold Matrix.ctorSized
    rw [if_pos h]
    intro h2; cases h2
  · rw [Matrix.ctorSized_ok rows cols h]
    intro h2; cases h2

end Thrown

/-! ## The operators on well-formed operands -/

section Operators

variable {T : Type}

theorem addAt_eq_zipAt [Add T] (other : Matrix T) :
    addAt other = zipAt (fun x y => x + y) other := rfl

theorem subAt_eq_zipAt [Sub T] (other : Matrix T) :
    subAt other = zipAt (fun x y => x - y) other := rfl

/-- The sequential pass over the storage: position `p` of the result holds `op` of the two
operands at `p`. -/
theorem zip_loop (op : T → T → T) (A B : Matrix T) (n : Nat)
    (hA : A._matrix.length = n) (hB : B._matrix.length = n) :
    ∃ R : Matrix T, forLoop n (zipAt op B) (Matrix.ctorCopy A) = .ok R ∧
      R._rows = A._rows ∧ R._cols = A._cols ∧ R._matrix.length = n ∧
      ∀ (p : Nat) (x y : T), A._matrix[p]? = some x → B._matrix[p]? = some y →
        R._matrix[p]? = some (op x y) := by
  obtain ⟨R, hrun, h1, h2, h3, h4, _⟩ := forLoop_inv
    (fun k (s : Matrix T) => s._rows = A._rows ∧ s._cols = A._cols ∧ s._matrix.length = n ∧
      (∀ (p : Nat) (x y : T), p < k → A._matrix[p]? = some x → B._matrix[p]? = some y →
        s._matrix[p]? = some (op x y)) ∧
      (∀ p : Nat, k ≤ p → s._matrix[p]? = A._matrix[p]?))
    n (zipAt op B) (Matrix.ctorCopy A)
    ⟨rfl, rfl, hA, by intro p x y hp; omega, by intro p _; rfl⟩
    (by
      intro k s hk ⟨h1, h2, h3, h4, h5⟩
      have hkA : k < A._matrix.length := by omega
      have hkB : k < B._matrix.length := by omega
      have hks : k < s._matrix.length := by omega
      have hsk : s._matrix[k]? = some (A._matrix[k]) := by
        rw [h5 k (Nat.le_refl k)]; exact List.getElem?_eq_getElem hkA
      refine ⟨Matrix.mk s._rows s._cols (s._matrix.set k (op (A._matrix[k]) (B._matrix[k]))),
        ?_, h1, h2, by simp [h3], ?_, ?_⟩
      · unfold zipAt
        rw [vecRead_of_getElem? hsk, vecRead_of_getElem? (List.getElem?_eq_getElem hkB)]
      · intro p x y hp hx hy
        by_cases hpk : k = p
        · subst hpk
          rw [List.getElem?_eq_getElem hkA] at hx
          rw [List.getElem?_eq_getElem hkB] at hy
          injection hx with hx
          injection hy with hy
          subst hx; subst hy
          simp [List.getElem?_set, hks]
        · simp only [List.getElem?_set, if_neg hpk]
          exact h4 p x y (by omega) hx hy
      · intro p hp
        have hpk : k ≠ p := by omega
        simp only [List.getElem?_set, if_neg hpk]
        exact h5 p (by omega))
  refine ⟨R, hrun, h1, h2, h3, ?_⟩
  intro p x y hx hy
  have hp : p < n := by
    rcases Nat.lt_or_ge p n with h | h
    · exact h
    · rw [List.getElem?_eq_none (by omega)] at hx; cases hx
  exact h4 p x y hp hx hy

/-- The sequential pass on two well-formed matrices of the same dimensions, cell by cell. -/
theorem zip_loop_cells [Zero T] (op : T → T → T) (A B : Matrix T)
    (hAm : A.machine) (hAs : A.storageInv) (hBm : B.machine) (hBs : B.storageInv)
    (hr : A._rows = B._rows) (hc : A._cols = B._cols) :
    ∃ R, forLoop ((A._rows * A._cols) % UINT_RANGE) (zipAt op B) (Matrix.ctorCopy A) = .ok R ∧
      R._rows = A._rows ∧ R._cols = A._cols ∧ R._matrix.length = A._rows * A._cols ∧
      ∀ i j, i < A._rows → j < A._cols →
        R._matrix[A._cols * i + j]? = some (op (A.cell i j) (B.cell i j)) := by
  have hfit := Matrix.count_lt hAm hAs
  rw [Nat.mod_eq_of_lt hfit]
  obtain ⟨R, hrun, h1, h2, h3, h4⟩ := zip_loop op A B (A._rows * A._cols) hAs.2
    (by rw [hBs.2, hr, hc])
  refine ⟨R, hrun, h1, h2, h3, ?_⟩
  intro i j hi hj
  apply h4
  · exact (Matrix.operator_call_of_dims rfl rfl hAs.2 hfit hi hj).1
  · have := (Matrix.operator_call_of_dims (M := B) rfl rfl hBs.2
      (Matrix.count_lt hBm hBs) (hr ▸ hi) (hc ▸ hj)).1
    rw [hc]; exact this

/-- The row workers of `operator+`, run one after the other on well-formed operands of the
same dimensions. -/
theorem add_workers_cells [Zero T] [Add T] (A B : Matrix T)
    (hAm : A.machine) (hAs : A.storageInv) (hBm : B.machine) (hBs : B.storageInv)
    (hr : A._rows = B._rows) (hc : A._cols = B._cols) :
    ∃ R, forLoop A._rows (fun i nm => A._addParallel B nm i) (Matrix.ctorCopy A) = .ok R ∧
      R._rows = A._rows ∧ R._cols = A._cols ∧ R._matrix.length = A._rows * A._cols ∧
      ∀ i j, i < A._rows → j < A._cols →
        R._matrix[A._cols * i + j]? = some (A.cell i j + B.cell i j) := by
  have hfit := Matrix.count_lt hAm hAs
  exact fill_loops A._rows A._cols (fun i j => A.cell i j + B.cell i j) hfit
    (addCell A B)
    (by
      intro i j nm hi hj _ _ _
      unfold addCell
      rw [Matrix.operator_call_in_range hAm hAs hi hj,
        Matrix.operator_call_in_range hBm hBs (hr ▸ hi) (hc ▸ hj)])
    (Matrix.ctorCopy A) rfl rfl hAs.2

/-- The operator `operator+` on well-formed operands of the same dimensions, in either mode. -/
theorem Matrix.operator_plus_cells [Zero T] [Add T] (isParallel : Bool) (A B : Matrix T)
    (hAm : A.machine) (hAs : A.storageInv) (hBm : B.machine) (hBs : B.storageInv)
    (hr : A._rows = B._rows) (hc : A._cols = B._cols) :
    ∃ R, A.operator_plus isParallel B = .ok R ∧
      R._rows = A._rows ∧ R._cols = A._cols ∧ R._matrix.length = A._rows * A._cols ∧
      ∀ i j, i < A._rows → j < A._cols →
        R._matrix[A._cols * i + j]? = some (A.cell i j + B.cell i j) := by
  unfold Matrix.operator_plus
  rw [if_neg (by rw [hr, hc]; simp)]
  cases isParallel with
  | true =>
    rw [if_pos rfl]
    exact add_workers_cells A B hAm hAs hBm hBs hr hc
  | false =>
    rw [if_neg (by decide), addAt_eq_zipAt]
    exact zip_loop_cells (fun x y => x + y) A B hAm hAs hBm hBs hr hc

/-- The operator `operator-` on well-formed operands of the same dimensions. -/
theorem Matrix.operator_minus_cells [Zero T] [Sub T] (A B : Matrix T)
    (hAm : A.machine) (hAs : A.storageInv) (hBm : B.machine) (hBs : B.storageInv)
    (hr : A._rows = B._rows) (hc : A._cols = B._cols) :
    ∃ R, A.operator_minus B = .ok R ∧
      R._rows = A._rows ∧ R._cols = A._cols ∧ R._matrix.length = A._rows * A._cols ∧
      ∀ i j, i < A._rows → j < A._cols →
        R._matrix[A._cols * i + j]? = some (A.cell i j - B.cell i j) := by
  unfold Matrix.operator_minus
  rw [if_neg (by rw [hr, hc]; simp), subAt_eq_zipAt]
  exact zip_loop_cells (fun x y => x - y) A B hAm hAs hBm hBs hr hc

/-- Reading a cell whose storage position is known. -/
theorem Matrix.operator_call_of_getElem? {M : Matrix T} {r c i j : Nat} {x : T}
    (hr : M._rows = r) (hc : M._cols = c) (hrc : r * c < UINT_RANGE)
    (hi : i < r) (hj : j < c) (h : M._matrix[c * i + j]? = some x) :
    M.operator_call i j = .ok x := by
  rw [Matrix.operator_call_eq_vecRead hr hc hrc hi hj]
  exact vecRead_of_getElem? h

/-- The accumulation loop of the product on an in-range cell returns the dot product. -/
theorem dot_loop [Zero T] [Add T] [Mul T] (A B : Matrix T)
    (hAm : A.machine) (hAs : A.storageInv) (hBm : B.machine) (hBs : B.storageInv)
    (hdim : A._cols = B._rows) {i j : Nat} (hi : i < A._rows) (hj : j < B._cols) :
    forLoop A._cols (dotStep A B i j) 0 = .ok (dotSum A B i j) := by
  obtain ⟨acc, hrun, hacc⟩ := forLoop_inv
    (fun k (acc : T) =>
      acc = (List.range k).foldl (fun acc k => acc + A.cell i k * B.cell k j) 0)
    A._cols (dotStep A B i j) 0 rfl
    (by
      intro k acc hk hacc
      refine ⟨acc + A.cell i k * B.cell k j, ?_, ?_⟩
      · unfold dotStep
        rw [Matrix.operator_call_in_range hAm hAs hi hk,
          Matrix.operator_call_in_range hBm hBs (hdim ▸ hk) hj]
      · show acc + A.cell i k * B.cell k j =
          (List.range (k + 1)).foldl (fun acc k => acc + A.cell i k * B.cell k j) 0
        rw [List.range_succ, List.foldl_append, ← hacc]
        rfl)
  rw [hrun, hacc]
  rfl

/-- The storage the sized constructor builds inside an operator, when the element count of
the result fits `unsigned int`. -/
theorem Matrix.ctorSized_fit [Zero T] {rows cols : Nat} (hz : rows = 0 ↔ cols = 0)
    (hfit : rows * cols < UINT_RANGE) :
    (Matrix.ctorSized rows cols : Result (Matrix T)) =
      .ok (Matrix.mk rows cols (List.replicate (rows * cols) 0)) := by
  rw [Matrix.ctorSized_ok rows cols (by omega), Nat.mod_eq_of_lt hfit]

/-- The two modes of `operator*` run the same loops. -/
theorem Matrix.operator_mul_mode [Zero T] [Add T] [Mul T] (A B : Matrix T) :
    A.operator_mul true B = A.operator_mul false B := by
  unfold Matrix.operator_mul
  by_cases hd : A._cols ≠ B._rows
  · rw [if_pos hd, if_pos hd]
  · rw [if_neg hd, if_neg hd]
    by_cases hz : (A._rows = 0 ∧ B._cols ≠ 0) ∨ (A._rows ≠ 0 ∧ B._cols = 0)
    · unfold Matrix.ctorSized
      rw [if_pos hz]
    · rw [Matrix.ctorSized_ok A._rows B._cols hz]
      rfl

/-- The operator `operator*` on well-formed operands whose result fits, in either mode. -/
theorem Matrix.operator_mul_cells [Zero T] [Add T] [Mul T] (isParallel : Bool)
    (A B : Matrix T)
    (hAm : A.machine) (hAs : A.storageInv) (hBm : B.machine) (hBs : B.storageInv)
    (hdim : A._cols = B._rows) (hfit : A._rows * B._cols < UINT_RANGE) :
    ∃ R : Matrix T, A.operator_mul isParallel B = .ok R ∧
      R._rows = A._rows ∧ R._cols = B._cols ∧ R._matrix.length = A._rows * B._cols ∧
      ∀ i j, i < A._rows → j < B._cols →
        R._matrix[B._cols * i + j]? = some (dotSum A B i j) := by
  have hmode : A.operator_mul isParallel B = A.operator_mul false B := by
    cases isParallel with
    | true => exact Matrix.operator_mul_mode A B
    | false => rfl
  rw [hmode]
  have hz : A._rows = 0 ↔ B._cols = 0 := by
    rw [hAs.1, hdim, hBs.1]
  unfold Matrix.operator_mul
  rw [if_neg (by rw [hdim]; simp), Matrix.ctorSized_fit hz hfit]
  dsimp only
  rw [if_neg (by decide)]
  exact fill_loops A._rows B._cols (dotSum A B) hfit (mulCell A B)
    (by
      intro i j nm hi hj _ _ _
      unfold mulCell
      rw [dot_loop A B hAm hAs hBm hBs hdim hi hj])
    _ rfl rfl (by simp)

/-- The generic `trans()` on a well-formed matrix. -/
theorem Matrix.trans_cells [Zero T] (M : Matrix T) (hMm : M.machine) (hMs : M.storageInv) :
    ∃ R : Matrix T, M.trans = .ok R ∧
      R._rows = M._cols ∧ R._cols = M._rows ∧ R._matrix.length = M._cols * M._rows ∧
      ∀ i j, i < M._cols → j < M._rows →
        R._matrix[M._rows * i + j]? = some (M.cell j i) := by
  have hfit : M._cols * M._rows < UINT_RANGE := by
    rw [Nat.mul_comm]; exact Matrix.count_lt hMm hMs
  unfold Matrix.trans
  rw [Matrix.ctorSized_fit hMs.1.symm hfit]
  dsimp only
  exact fill_loops M._cols M._rows (fun i j => M.cell j i) hfit
    (fun i j nm1 =>
      match M.operator_call j i with
      | .error e => .error e
      | .ok v => nm1.assignCell i j v)
    (by
      intro i j nm hi hj _ _ _
      dsimp only
      rw [Matrix.operator_call_in_range hMm hMs hj hi])
    _ rfl rfl (by simp)

/-- When the element count of the result wraps to zero, the first store of the product falls
outside the storage of the result. -/
theorem Matrix.operator_mul_wrapped [Zero T] [Add T] [Mul T] (isParallel : Bool)
    (A B : Matrix T) (hdim : A._cols = B._rows) (hc : A._cols = 1)
    (hrows : 0 < A._rows) (hcols : 0 < B._cols)
    (hwrap : (A._rows * B._cols) % UINT_RANGE = 0)
    {a b : T} (hA : A.operator_call 0 0 = .ok a) (hB : B.operator_call 0 0 = .ok b) :
    A.operator_mul isParallel B = .error .UndefinedBehaviour := by
  have hmode : A.operator_mul isParallel B = A.operator_mul false B := by
    cases isParallel with
    | true => exact Matrix.operator_mul_mode A B
    | false => rfl
  rw [hmode]
  unfold Matrix.operator_mul
  rw [if_neg (by rw [hdim]; simp), Matrix.ctorSized_ok A._rows B._cols (by omega), hwrap]
  dsimp only
  rw [if_neg (by decide)]
  apply forLoop_first_error _ _ _ _ hrows
  apply forLoop_first_error _ _ _ _ hcols
  unfold mulCell
  rw [hc, forLoop_succ]
  unfold dotStep
  dsimp only [forLoop]
  rw [hA, hB]
  dsimp only
  unfold Matrix.assignCell Matrix.operator_call_ref
  dsimp only
  rw [if_neg (by omega), if_neg (by simp)]

/-- On a matrix with positive dimensions and an empty storage the first row worker of
`operator+` reads outside the storage. -/
theorem Matrix.operator_plus_parallel_empty [Add T] (A : Matrix T)
    (hrows : 0 < A._rows) (hcols : 0 < A._cols) (hempty : A._matrix = []) :
    A.operator_plus true A = .error .UndefinedBehaviour := by
  unfold Matrix.operator_plus
  rw [if_neg (by simp), if_pos rfl]
  apply forLoop_first_error _ _ _ _ hrows
  apply forLoop_first_error _ _ _ _ hcols
  unfold addCell Matrix.operator_call
  rw [if_neg (by omega), hempty]
  rfl

/-- The cell `(0, 0)` of a matrix of `n` zeros, `n` positive and fitting `unsigned int`. -/
theorem Matrix.operator_call_zeros [Zero T] (r c n : Nat) (hr : 0 < r) (hc : 0 < c)
    (hrc : r * c < UINT_RANGE) (hn : 0 < n) :
    (Matrix.mk r c (List.replicate n (0 : T))).operator_call 0 0 = .ok 0 :=
  Matrix.operator_call_of_getElem? rfl rfl hrc hr hc
    (by rw [List.getElem?_replicate]; exact if_pos (by omega))

/-- The generic `trans()` is the specialised one with the identity for `conj`. -/
theorem Matrix.trans_eq_transComplex [Zero T] (M : Matrix T) :
    M.trans = M.transComplex id := rfl

/-- The specialised `trans()` on a well-formed matrix. -/
theorem Matrix.transComplex_cells [Zero T] (conj : T → T) (M : Matrix T)
    (hMm : M.machine) (hMs : M.storageInv) :
    ∃ R : Matrix T, M.transComplex conj = .ok R ∧
      R._rows = M._cols ∧ R._cols = M._rows ∧ R._matrix.length = M._cols * M._rows ∧
      ∀ i j, i < M._cols → j < M._rows →
        R._matrix[M._rows * i + j]? = some (conj (M.cell j i)) := by
  have hfit : M._cols * M._rows < UINT_RANGE := by
    rw [Nat.mul_comm]; exact Matrix.count_lt hMm hMs
  unfold Matrix.transComplex
  rw [Matrix.ctorSized_fit hMs.1.symm hfit]
  dsimp only
  exact fill_loops M._cols M._rows (fun i j => conj (M.cell j i)) hfit
    (fun i j nm1 =>
      match M.operator_call j i with
      | .error e => .error e
      | .ok v => nm1.assignCell i j (conj v))
    (by
      intro i j nm hi hj _ _ _
      dsimp only
      rw [Matrix.operator_call_in_range hMm hMs hj hi])
    _ rfl rfl (by simp)

/-- The specialised `trans()` returns a well-formed matrix, cell by cell. -/
theorem Matrix.transComplex_wf [Zero T] (conj : T → T) (M : Matrix T)
    (hMm : M.machine) (hMs : M.storageInv) :
    ∃ R : Matrix T, M.transComplex conj = .ok R ∧ R.machine ∧ R.storageInv ∧
      R._rows = M._cols ∧ R._cols = M._rows ∧
      ∀ i j, i < M._cols → j < M._rows → R.cell i j = conj (M.cell j i) := by
  obtain ⟨R, hrun, h1, h2, h3, h4⟩ := Matrix.transComplex_cells conj M hMm hMs
  have hfit : M._cols * M._rows < UINT_RANGE := by
    rw [Nat.mul_comm]; exact Matrix.count_lt hMm hMs
  obtain ⟨w1, w2, w3⟩ := Matrix.wf_of_cells h1 h2 h3 hMm.2.1 hMm.1 hfit hMs.1.symm h4
  exact ⟨R, hrun, w1, w2, h1, h2, w3⟩

/-- The operator `operator+` returns a well-formed matrix, cell by cell. -/
theorem Matrix.operator_plus_wf [Zero T] [Add T] (isParallel : Bool) (A B : Matrix T)
    (hAm : A.machine) (hAs : A.storageInv) (hBm : B.machine) (hBs : B.storageInv)
    (hr : A._rows = B._rows) (hc : A._cols = B._cols) :
    ∃ R : Matrix T, A.operator_plus isParallel B = .ok R ∧ R.machine ∧ R.storageInv ∧
      R._rows = A._rows ∧ R._cols = A._cols ∧
      ∀ i j, i < A._rows → j < A._cols → R.cell i j = A.cell i j + B.cell i j := by
  obtain ⟨R, hrun, h1, h2, h3, h4⟩ :=
    Matrix.operator_plus_cells isParallel A B hAm hAs hBm hBs hr hc
  obtain ⟨w1, w2, w3⟩ := Matrix.wf_of_cells h1 h2 h3 hAm.1 hAm.2.1
    (Matrix.count_lt hAm hAs) hAs.1 h4
  exact ⟨R, hrun, w1, w2, h1, h2, w3⟩

/-- The operator `operator-` returns a well-formed matrix, cell by cell. -/
theorem Matrix.operator_minus_wf [Zero T] [Sub T] (A B : Matrix T)
    (hAm : A.machine) (hAs : A.storageInv) (hBm : B.machine) (hBs : B.storageInv)
    (hr : A._rows = B._rows) (hc : A._cols = B._cols) :
    ∃ R : Matrix T, A.operator_minus B = .ok R ∧ R.machine ∧ R.storageInv ∧
      R._rows = A._rows ∧ R._cols = A._cols ∧
      ∀ i j, i < A._rows → j < A._cols → R.cell i j = A.cell i j - B.cell i j := by
  obtain ⟨R, hrun, h1, h2, h3, h4⟩ :=
    Matrix.operator_minus_cells A B hAm hAs hBm hBs hr hc
  obtain ⟨w1, w2, w3⟩ := Matrix.wf_of_cells h1 h2 h3 hAm.1 hAm.2.1
    (Matrix.count_lt hAm hAs) hAs.1 h4
  exact ⟨R, hrun, w1, w2, h1, h2, w3⟩

/-- The operator `operator*` returns a well-formed matrix, cell by cell, when the element
count of the result fits `unsigned int`. -/
theorem Matrix.operator_mul_wf [Zero T] [Add T] [Mul T] (isParallel : Bool) (A B : Matrix T)
    (hAm : A.machine) (hAs : A.storageInv) (hBm : B.machine) (hBs : B.storageInv)
    (hdim : A._cols = B._rows) (hfit : A._rows * B._cols < UINT_RANGE) :
    ∃ R : Matrix T, A.operator_mul isParallel B = .ok R ∧ R.machine ∧ R.storageInv ∧
      R._rows = A._rows ∧ R._cols = B._cols ∧
      ∀ i j, i < A._rows → j < B._cols → R.cell i j = dotSum A B i j := by
  obtain ⟨R, hrun, h1, h2, h3, h4⟩ :=
    Matrix.operator_mul_cells isParallel A B hAm hAs hBm hBs hdim hfit
  have hz : A._rows = 0 ↔ B._cols = 0 := by rw [hAs.1, hdim, hBs.1]
  obtain ⟨w1, w2, w3⟩ := Matrix.wf_of_cells h1 h2 h3 hAm.1 hBm.2.1 hfit hz h4
  exact ⟨R, hrun, w1, w2, h1, h2, w3⟩

/-- The body of the product loops keeps the dimensions and the element count of the result
matrix when it returns. -/
theorem mulCell_ok_dims [Zero T] [Add T] [Mul T] {A B nm nm2 : Matrix T} {i j : Nat}
    (h : mulCell A B i j nm = .ok nm2) :
    nm2._rows = nm._rows ∧ nm2._cols = nm._cols ∧ nm2._matrix.length = nm._matrix.length := by
  unfold mulCell at h
  split at h
  · cases h
  · exact Matrix.assignCell_ok_dims h

/-- A product that returns has a result whose element count fits `unsigned int`: when the
count wraps, the store into the cell whose linear index is the wrapped count falls outside the
storage. -/
theorem Matrix.operator_mul_ok_fit [Zero T] [Add T] [Mul T] (isParallel : Bool)
    (A B R : Matrix T) (h : A.operator_mul isParallel B = .ok R) :
    A._rows * B._cols < UINT_RANGE := by
  by_contra hbig
  have hU : 0 < UINT_RANGE := by rw [uint_range_eq]; decide
  have hmode : A.operator_mul isParallel B = A.operator_mul false B := by
    cases isParallel with
    | true => exact Matrix.operator_mul_mode A B
    | false => rfl
  rw [hmode] at h
  unfold Matrix.operator_mul at h
  by_cases hd : A._cols ≠ B._rows
  · rw [if_pos hd] at h
    cases h
  rw [if_neg hd] at h
  by_cases hz : (A._rows = 0 ∧ B._cols ≠ 0) ∨ (A._rows ≠ 0 ∧ B._cols = 0)
  · unfold Matrix.ctorSized at h
    rw [if_pos hz] at h
    cases h
  · rw [Matrix.ctorSized_ok A._rows B._cols hz] at h
    dsimp only at h
    rw [if_neg (by decide)] at h
    have hn : (A._rows * B._cols) % UINT_RANGE < A._rows * B._cols :=
      Nat.lt_of_lt_of_le (Nat.mod_lt _ hU) (Nat.le_of_not_lt hbig)
    obtain ⟨hi0, hj0, hsplit⟩ := index_split hn
    refine forLoop_fails
      (fun s : Matrix T => s._rows = A._rows ∧ s._cols = B._cols ∧
        s._matrix.length = (A._rows * B._cols) % UINT_RANGE)
      A._rows _ _ ?_ ?_
      ((A._rows * B._cols) % UINT_RANGE / B._cols) hi0 ?_ R h
    · exact ⟨rfl, rfl, List.length_replicate _ _⟩
    · intro k s1 s2 _ hI hrun
      refine forLoop_ok_inv
        (fun s : Matrix T => s._rows = A._rows ∧ s._cols = B._cols ∧
          s._matrix.length = (A._rows * B._cols) % UINT_RANGE)
        s1._cols _ s1 hI ?_ s2 hrun
      intro j a b _ hIa hab
      obtain ⟨d1, d2, d3⟩ := mulCell_ok_dims hab
      exact ⟨d1.trans hIa.1, d2.trans hIa.2.1, d3.trans hIa.2.2⟩
    · intro s1 s2 hI
      rw [hI.2.1]
      refine forLoop_fails
        (fun s : Matrix T => s._rows = A._rows ∧ s._cols = B._cols ∧
          s._matrix.length = (A._rows * B._cols) % UINT_RANGE)
        B._cols _ s1 hI ?_
        ((A._rows * B._cols) % UINT_RANGE % B._cols) hj0 ?_ s2
      · intro j a b _ hIa hab
        obtain ⟨d1, d2, d3⟩ := mulCell_ok_dims hab
        exact ⟨d1.trans hIa.1, d2.trans hIa.2.1, d3.trans hIa.2.2⟩
      · intro a b hIa hab
        unfold mulCell at hab
        split at hab
        · cases hab
        · unfold Matrix.assignCell Matrix.operator_call_ref at hab
          rw [hIa.1, hIa.2.1, if_neg (by omega), hsplit, Nat.mod_mod, hIa.2.2,
            if_neg (Nat.lt_irrefl _)] at hab
          cases hab

end Operators

/-! ## Trace -/

section Trace

variable {T : Type}

/-- With equal dimensions `trace()` does not throw `NoSquareException`. -/
theorem Matrix.trace_ne_noSquare [Zero T] [Add T] (M : Matrix T) (hsq : M._rows = M._cols) :
    M.trace ≠ .error .NoSquareException := by
  unfold Matrix.trace
  rw [if_neg (fun h => h hsq)]
  apply forLoop_ne_error
  intro i acc
  cases hc : M.operator_call i i with
  | ok v => intro h; cases h
  | error e =>
    intro h
    injection h with h
    subst h
    rcases Matrix.operator_call_error hc with h1 | h1 <;> cases h1

/-- On a well-formed square matrix `trace()` returns the diagonal sum. -/
theorem Matrix.trace_ok [Zero T] [Add T] (M : Matrix T)
    (hMm : M.machine) (hMs : M.storageInv) (hsq : M._rows = M._cols) :
    M.trace = .ok (diagSum M) := by
  unfold Matrix.trace
  rw [if_neg (fun h => h hsq)]
  obtain ⟨acc, hrun, hacc⟩ := forLoop_inv
    (fun k (acc : T) => acc = (List.range k).foldl (fun acc i => acc + M.cell i i) 0)
    M._rows
    (fun i trace =>
      match M.operator_call i i with
      | .error e => .error e
      | .ok v => .ok (trace + v)) 0 rfl
    (by
      intro k acc hk hacc
      refine ⟨acc + M.cell k k, ?_, ?_⟩
      · dsimp only
        rw [Matrix.operator_call_in_range hMm hMs hk (hsq ▸ hk)]
      · show acc + M.cell k k =
          (List.range (k + 1)).foldl (fun acc i => acc + M.cell i i) 0
        rw [List.range_succ, List.foldl_append, ← hacc]
        rfl)
  rw [hrun, hacc]
  rfl

end Trace

/-! ## Comparison of the backing vectors -/

section Equality

variable {T : Type}

theorem Matrix.operator_eq_eq [BEq T] (A B : Matrix T) :
    A.operator_eq B = (A._matrix == B._matrix) := by
  unfold Matrix.operator_eq
  cases (A._matrix == B._matrix) <;> rfl

theorem Matrix.operator_ne_eq [BEq T] (A B : Matrix T) :
    A.operator_ne B = !(A._matrix == B._matrix) := by
  unfold Matrix.operator_ne
  rw [Matrix.operator_eq_eq]

/-- A vector compares equal with itself when every element does. -/
theorem vec_beq_refl [BEq T] (hrefl : ∀ a : T, (a == a) = true) (l : List T) :
    (l == l) = true := by
  induction l with
  | nil => rfl
  | cons a t ih =>
    show (a == a && t == t) = true
    rw [hrefl a, ih]
    rfl

/-- The comparison of two vectors is symmetric when that of the elements is. -/
theorem vec_beq_symm [BEq T] (hsymm : ∀ a b : T, (a == b) = (b == a)) (l1 l2 : List T) :
    (l1 == l2) = (l2 == l1) := by
  induction l1 generalizing l2 with
  | nil => cases l2 <;> rfl
  | cons a t ih =>
    cases l2 with
    | nil => rfl
    | cons b u =>
      show (a == b && t == u) = (b == a && u == t)
      rw [hsymm a b, ih u]

/-- Two vectors that hold different elements at some position compare unequal. -/
theorem vec_beq_differ [BEq T] (l1 l2 : List T) (p : Nat) (x y : T)
    (hx : l1[p]? = some x) (hy : l2[p]? = some y) (hxy : (x == y) = false) :
    (l1 == l2) = false := by
  induction l1 generalizing l2 p with
  | nil => cases hx
  | cons a t ih =>
    cases l2 with
    | nil => cases hy
    | cons b u =>
      show (a == b && t == u) = false
      cases p with
      | zero =>
        simp only [List.getElem?_cons_zero, Option.some.injEq] at hx hy
        rw [hx, hy, hxy]
        rfl
      | succ q =>
        simp only [List.getElem?_cons_succ] at hx hy
        rw [ih u q hx hy]
        exact Bool.and_false _

end Equality

/-! ## Transposing twice, and the zero matrix -/

section RoundTrip

variable {T : Type}

/-- Transposing twice with an involutive `conj` gives the matrix back. -/
theorem Matrix.transComplex_involution [Zero T] (conj : T → T)
    (hconj : ∀ z : T, conj (conj z) = z) (M : Matrix T)
    (hMm : M.machine) (hMs : M.storageInv) :
    ∃ R R2 : Matrix T, M.transComplex conj = .ok R ∧ R.transComplex conj = .ok R2 ∧
      R2 = M := by
  obtain ⟨R, hrun, hRm, hRs, h1, h2, h3⟩ := Matrix.transComplex_wf conj M hMm hMs
  obtain ⟨R2, hrun2, hR2m, hR2s, g1, g2, g3⟩ := Matrix.transComplex_wf conj R hRm hRs
  refine ⟨R, R2, hrun, hrun2, ?_⟩
  apply Matrix.eq_of_cells hR2m hR2s hMm hMs (g1.trans h2) (g2.trans h1)
  intro i j hi hj
  rw [g1, h2] at hi
  rw [g2, h1] at hj
  rw [g3 i j (h2 ▸ hi) (h1 ▸ hj), h3 j i hj hi, hconj]

/-- The sized constructor returns a well-formed matrix of zeros when the element count fits
`unsigned int`. -/
theorem Matrix.ctorSized_wf [Zero T] {rows cols : Nat}
    (hr : rows < UINT_RANGE) (hc : cols < UINT_RANGE) (hz : rows = 0 ↔ cols = 0)
    (hfit : rows * cols < UINT_RANGE) :
    ∃ Z : Matrix T, Matrix.ctorSized rows cols = .ok Z ∧ Z.machine ∧ Z.storageInv ∧
      Z._rows = rows ∧ Z._cols = cols ∧ ∀ i j, i < rows → j < cols → Z.cell i j = 0 := by
  refine ⟨_, Matrix.ctorSized_fit hz hfit, ?_⟩
  obtain ⟨w1, w2, w3⟩ := Matrix.wf_of_cells
    (M := Matrix.mk rows cols (List.replicate (rows * cols) (0 : T)))
    (f := fun _ _ => (0 : T)) rfl rfl (List.length_replicate _ _) hr hc hfit hz
    (by
      intro i j hi hj
      show (List.replicate (rows * cols) (0 : T))[cols * i + j]? = some 0
      rw [List.getElem?_replicate]
      exact if_pos (index_lt hi hj))
  exact ⟨w1, w2, rfl, rfl, w3⟩

/-- A matrix compares equal with itself when every element does. -/
theorem Matrix.operator_eq_self [BEq T] (hrefl : ∀ a : T, (a == a) = true) (M : Matrix T) :
    M.operator_eq M = true := by
  rw [Matrix.operator_eq_eq]
  exact vec_beq_refl hrefl _

/-- What a successful sized construction has built. -/
theorem Matrix.ctorSized_ok_props [Zero T] {rows cols : Nat} {M : Matrix T}
    (h : Matrix.ctorSized rows cols = .ok M) :
    M._rows = rows ∧ M._cols = cols ∧ (rows = 0 ↔ cols = 0) ∧
      M._matrix.length = (rows * cols) % UINT_RANGE ∧ ∀ x ∈ M._matrix, x = 0 := by
  by_cases hz : (rows = 0 ∧ cols ≠ 0) ∨ (rows ≠ 0 ∧ cols = 0)
  · unfold Matrix.ctorSized at h
    rw [if_pos hz] at h
    cases h
  · rw [Matrix.ctorSized_ok rows cols hz] at h
    injection h with h
    subst h
    exact ⟨rfl, rfl, by omega, List.length_replicate _ _,
      fun x hx => (List.mem_replicate.mp hx).2⟩

/-- What a successful data construction has built. -/
theorem Matrix.ctorCells_ok_props {rows cols : Nat} {cells : List T} {M : Matrix T}
    (h : Matrix.ctorCells rows cols cells = .ok M) :
    M._rows = rows ∧ M._cols = cols ∧ (rows = 0 ↔ cols = 0) ∧
      M._matrix.length = (rows * cols) % UINT_RANGE ∧ M._matrix = cells := by
  unfold Matrix.ctorCells at h
  split_ifs at h with h1 h2
  injection h with h
  subst h
  exact ⟨rfl, rfl, by omega, not_not.mp h2, rfl⟩

/-- A sum that returns had operands of the same dimensions. -/
theorem Matrix.operator_plus_ok_dims [Add T] {isParallel : Bool} {A B R : Matrix T}
    (h : A.operator_plus isParallel B = .ok R) :
    A._rows = B._rows ∧ A._cols = B._cols := by
  by_cases hd : A._rows ≠ B._rows ∨ A._cols ≠ B._cols
  · unfold Matrix.operator_plus at h
    rw [if_pos hd] at h
    cases h
  · exact ⟨by_contra fun e => hd (Or.inl e), by_contra fun e => hd (Or.inr e)⟩

/-- A difference that returns had operands of the same dimensions. -/
theorem Matrix.operator_minus_ok_dims [Sub T] {A B R : Matrix T}
    (h : A.operator_minus B = .ok R) :
    A._rows = B._rows ∧ A._cols = B._cols := by
  by_cases hd : A._rows ≠ B._rows ∨ A._cols ≠ B._cols
  · unfold Matrix.operator_minus at h
    rw [if_pos hd] at h
    cases h
  · exact ⟨by_contra fun e => hd (Or.inl e), by_contra fun e => hd (Or.inr e)⟩

/-- A product that returns had operands of matching dimensions. -/
theorem Matrix.operator_mul_ok_dims [Zero T] [Add T] [Mul T] {isParallel : Bool}
    {A B R : Matrix T} (h : A.operator_mul isParallel B = .ok R) : A._cols = B._rows := by
  by_contra hd
  unfold Matrix.operator_mul at h
  rw [if_pos hd] at h
  cases h

/-- On well-formed operands of matching dimensions the only failure of `operator*` is a store
outside the storage of the result: neither the internal construction nor an internal element
access throws. -/
theorem Matrix.operator_mul_error_kind [Zero T] [Add T] [Mul T] (isParallel : Bool)
    (A B : Matrix T)
    (hAm : A.machine) (hAs : A.storageInv) (hBm : B.machine) (hBs : B.storageInv)
    (hdim : A._cols = B._rows) (e : Exception)
    (h : A.operator_mul isParallel B = .error e) : e = .UndefinedBehaviour := by
  have hmode : A.operator_mul isParallel B = A.operator_mul false B := by
    cases isParallel with
    | true => exact Matrix.operator_mul_mode A B
    | false => rfl
  rw [hmode] at h
  have hz : A._rows = 0 ↔ B._cols = 0 := by rw [hAs.1, hdim, hBs.1]
  unfold Matrix.operator_mul at h
  rw [if_neg (fun hne => hne hdim), Matrix.ctorSized_ok A._rows B._cols (by omega)] at h
  dsimp only at h
  rw [if_neg (by decide)] at h
  refine forLoop_error_inv
    (fun s : Matrix T => s._rows = A._rows ∧ s._cols = B._cols)
    (fun e => e = .UndefinedBehaviour) A._rows _ _ ?_ ?_ ?_ e h
  · exact ⟨rfl, rfl⟩
  · intro k s1 s2 _ hI hrun
    refine forLoop_ok_inv (fun s : Matrix T => s._rows = A._rows ∧ s._cols = B._cols)
      s1._cols _ s1 hI ?_ s2 hrun
    intro j a b _ hIa hab
    obtain ⟨d1, d2, _⟩ := mulCell_ok_dims hab
    exact ⟨d1.trans hIa.1, d2.trans hIa.2⟩
  · intro k s1 e1 hk hI hrun
    refine forLoop_error_inv (fun s : Matrix T => s._rows = A._rows ∧ s._cols = B._cols)
      (fun e => e = .UndefinedBehaviour) s1._cols _ s1 hI ?_ ?_ e1 hrun
    · intro j a b _ hIa hab
      obtain ⟨d1, d2, _⟩ := mulCell_ok_dims hab
      exact ⟨d1.trans hIa.1, d2.trans hIa.2⟩
    · intro j a e2 hj hIa hab
      rw [hI.2] at hj
      unfold mulCell at hab
      rw [dot_loop A B hAm hAs hBm hBs hdim hk hj] at hab
      dsimp only at hab
      unfold Matrix.assignCell Matrix.operator_call_ref at hab
      rw [hIa.1, hIa.2, if_neg (by omega)] at hab
      by_cases hlt : (B._cols * k + j) % UINT_RANGE < a._matrix.length
      · rw [if_pos hlt] at hab
        cases hab
      · rw [if_neg hlt] at hab
        injection hab with hab
        exact hab.symm

end RoundTrip

/-! ## The product as a sum, and its associativity -/

section Associativity

variable {T : Type}

/-- An accumulation from zero in increasing order is the sum over the range. -/
theorem foldl_add_eq_sum [Semiring T] (f : Nat → T) (n : Nat) :
    (List.range n).foldl (fun acc k => acc + f k) 0 = Finset.sum (Finset.range n) f := by
  induction n with
  | zero => rfl
  | succ m ih =>
    rw [List.range_succ, List.foldl_append, ih, Finset.sum_range_succ]
    rfl

/-- The element of the product, as a sum. -/
theorem dotSum_eq_sum [Semiring T] (A B : Matrix T) (i j : Nat) :
    dotSum A B i j = Finset.sum (Finset.range A._cols) (fun k => A.cell i k * B.cell k j) := by
  unfold dotSum
  exact foldl_add_eq_sum (fun k => A.cell i k * B.cell k j) A._cols

/-- Associativity on the elements: the two ways of summing `A(i,l) * B(l,k) * C(k,j)`. -/
theorem dotSum_assoc [Semiring T] (A B C AB BC : Matrix T) (i j : Nat)
    (hABc : AB._cols = B._cols)
    (hAB : ∀ k, k < B._cols → AB.cell i k = dotSum A B i k)
    (hBC : ∀ l, l < A._cols → BC.cell l j = dotSum B C l j) :
    dotSum AB C i j = dotSum A BC i j := by
  rw [dotSum_eq_sum, dotSum_eq_sum, hABc]
  have h1 : Finset.sum (Finset.range B._cols) (fun k => AB.cell i k * C.cell k j) =
      Finset.sum (Finset.range B._cols) (fun k =>
        Finset.sum (Finset.range A._cols) (fun l => A.cell i l * B.cell l k * C.cell k j)) := by
    apply Finset.sum_congr rfl
    intro k hk
    rw [hAB k (Finset.mem_range.mp hk), dotSum_eq_sum, Finset.sum_mul]
  have h2 : Finset.sum (Finset.range A._cols) (fun l => A.cell i l * BC.cell l j) =
      Finset.sum (Finset.range A._cols) (fun l =>
        Finset.sum (Finset.range B._cols) (fun k => A.cell i l * B.cell l k * C.cell k j)) := by
    apply Finset.sum_congr rfl
    intro l hl
    rw [hBC l (Finset.mem_range.mp hl), dotSum_eq_sum, Finset.mul_sum]
    apply Finset.sum_congr rfl
    intro k _
    rw [mul_assoc]
  rw [h1, h2, Finset.sum_comm]

/-- The two bracketings of a product of three well-formed matrices whose intermediate and
final element counts fit `unsigned int` return the same matrix. -/
theorem Matrix.operator_mul_assoc_wf [Semiring T] (isParallel : Bool) (A B C : Matrix T)
    (hAm : A.machine) (hAs : A.storageInv) (hBm : B.machine) (hBs : B.storageInv)
    (hCm : C.machine) (hCs : C.storageInv)
    (h1 : A._cols = B._rows) (h2 : B._cols = C._rows)
    (fit1 : A._rows * B._cols < UINT_RANGE) (fit2 : B._rows * C._cols < UINT_RANGE)
    (fit3 : A._rows * C._cols < UINT_RANGE) :
    ∃ AB BC R1 R2 : Matrix T,
      A.operator_mul isParallel B = .ok AB ∧ AB.operator_mul isParallel C = .ok R1 ∧
      B.operator_mul isParallel C = .ok BC ∧ A.operator_mul isParallel BC = .ok R2 ∧
      R1._rows = A._rows ∧ R1._cols = C._cols ∧ R1 = R2 := by
  obtain ⟨AB, hAB, hABm, hABs, ab1, ab2, ab3⟩ :=
    Matrix.operator_mul_wf isParallel A B hAm hAs hBm hBs h1 fit1
  obtain ⟨BC, hBC, hBCm, hBCs, bc1, bc2, bc3⟩ :=
    Matrix.operator_mul_wf isParallel B C hBm hBs hCm hCs h2 fit2
  obtain ⟨R1, hR1, hR1m, hR1s, r1, r2, r3⟩ :=
    Matrix.operator_mul_wf isParallel AB C hABm hABs hCm hCs (ab2.trans h2)
      (by rw [ab1]; exact fit3)
  obtain ⟨R2, hR2, hR2m, hR2s, q1, q2, q3⟩ :=
    Matrix.operator_mul_wf isParallel A BC hAm hAs hBCm hBCs (h1.trans bc1.symm)
      (by rw [bc2]; exact fit3)
  refine ⟨AB, BC, R1, R2, hAB, hR1, hBC, hR2, r1.trans ab1, r2, ?_⟩
  apply Matrix.eq_of_cells hR1m hR1s hR2m hR2s (r1.trans (ab1.trans q1.symm))
    (r2.trans (bc2.symm.trans q2.symm))
  intro i j hi hj
  rw [r1] at hi
  rw [r2] at hj
  rw [r3 i j hi hj, q3 i j (ab1 ▸ hi) (bc2.symm ▸ hj)]
  apply dotSum_assoc A B C AB BC i j ab2
  · intro k hk
    exact ab3 i k (ab1 ▸ hi) hk
  · intro l hl
    exact bc3 l j (h1 ▸ hl) hj

end Associativity

/-! ## Row workers -/

section Workers

variable {T : Type}

/-- A position outside the row `row` is not the linear index of a cell of that row. -/
theorem outside_row_ne {c row j p : Nat} (hj : j < c)
    (hp : p < row * c ∨ row * c + c ≤ p) : c * row + j ≠ p := by
  have h : c * row = row * c := Nat.mul_comm c row
  omega

/-- The linear index of a cell of another row lies outside the row `row`. -/
theorem other_row_outside {c row i j : Nat} (hj : j < c) (hne : i ≠ row) :
    c * i + j < row * c ∨ row * c + c ≤ c * i + j := by
  rcases Nat.lt_or_gt_of_ne hne with h | h
  · left
    have h1 : c * i + c ≤ c * row := by
      have : c * (i + 1) ≤ c * row := Nat.mul_le_mul_left c h
      simpa [Nat.mul_succ] using this
    have h2 : c * row = row * c := Nat.mul_comm c row
    omega
  · right
    have h1 : c * row + c ≤ c * i := by
      have : c * (row + 1) ≤ c * i := Nat.mul_le_mul_left c h
      simpa [Nat.mul_succ] using this
    have h2 : c * row = row * c := Nat.mul_comm c row
    omega

/-- A worker whose iterations store into cells of its row only, on a well-formed result
matrix, changes no storage position outside that row when it returns. -/
theorem row_worker_frame (nm : Matrix T) (hm : nm.machine) (hs : nm.storageInv)
    (row : Nat) (hrow : row < nm._rows) (body : Nat → Matrix T → Result (Matrix T))
    (hbody : ∀ j s s2, body j s = .ok s2 → ∃ v, s.assignCell row j v = .ok s2)
    (nm2 : Matrix T) (h : forLoop nm._cols body nm = .ok nm2) : RowFrame row nm nm2 := by
  have hfit := Matrix.count_lt hm hs
  refine forLoop_ok_inv (fun s => RowFrame row nm s) nm._cols body nm
    ⟨rfl, rfl, rfl, fun _ _ => rfl⟩ ?_ nm2 h
  intro k s1 s2 hk hI hrun
  obtain ⟨v, hv⟩ := hbody k s1 s2 hrun
  obtain ⟨f1, f2, f3, f4⟩ := hI
  rw [Matrix.assignCell_of_dims f1 f2 (f3.trans hs.2) hfit hrow hk v] at hv
  injection hv with hv
  subst hv
  refine ⟨rfl, rfl, by simp [f3], ?_⟩
  intro p hp
  have hne := outside_row_ne hk hp
  simp only [List.getElem?_set, if_neg hne]
  exact f4 p hp

/-- A worker that stores `f row j` into every cell `(row, j)` returns, has changed no position
outside its row, and has filled its row. -/
theorem row_worker_cells (r c : Nat) (f : Nat → Nat → T) (hrc : r * c < UINT_RANGE)
    (row : Nat) (hrow : row < r) (body : Nat → Matrix T → Result (Matrix T))
    (hbody : ∀ j nm, j < c → nm._rows = r → nm._cols = c → nm._matrix.length = r * c →
      body j nm = nm.assignCell row j (f row j))
    (nm : Matrix T) (hr : nm._rows = r) (hc : nm._cols = c)
    (hlen : nm._matrix.length = r * c) :
    ∃ nm2 : Matrix T, forLoop nm._cols body nm = .ok nm2 ∧ RowFrame row nm nm2 ∧
      ∀ j, j < c → nm2._matrix[c * row + j]? = some (f row j) := by
  rw [hc]
  obtain ⟨nm2, hrun, h1, h2, h3, h4, h5⟩ := forLoop_inv
    (fun k (s : Matrix T) => s._rows = r ∧ s._cols = c ∧ s._matrix.length = r * c ∧
      (∀ j, j < k → s._matrix[c * row + j]? = some (f row j)) ∧
      (∀ p : Nat, (p < row * c ∨ row * c + c ≤ p) → s._matrix[p]? = nm._matrix[p]?))
    c body nm ⟨hr, hc, hlen, by intro j hj; omega, fun _ _ => rfl⟩
    (by
      intro k s1 hk ⟨g1, g2, g3, g4, g5⟩
      refine ⟨Matrix.mk r c (s1._matrix.set (c * row + k) (f row k)), ?_, rfl, rfl,
        by simp [g3], ?_, ?_⟩
      · rw [hbody k s1 hk g1 g2 g3]
        exact Matrix.assignCell_of_dims g1 g2 g3 hrc hrow hk (f row k)
      · intro j hj
        by_cases hjk : j = k
        · subst hjk
          have hlt : c * row + j < s1._matrix.length := by rw [g3]; exact index_lt hrow hk
          simp [List.getElem?_set, hlt]
        · have hne : c * row + k ≠ c * row + j := by omega
          simp only [List.getElem?_set, if_neg hne]
          exact g4 j (by omega)
      · intro p hp
        have hne := outside_row_ne hk hp
        simp only [List.getElem?_set, if_neg hne]
        exact g5 p hp)
  refine ⟨nm2, hrun, ⟨h1.trans hr.symm, h2.trans hc.symm, h3.trans hlen.symm, ?_⟩, h4⟩
  intro p hp
  rw [hc] at hp
  exact h5 p hp

theorem runWorkers_append (worker : Nat → Matrix T → Result (Matrix T))
    (l1 l2 : List Nat) (nm : Matrix T) :
    runWorkers worker (l1 ++ l2) nm =
      (match runWorkers worker l1 nm with
       | .ok s => runWorkers worker l2 s
       | .error e => .error e) := by
  induction l1 generalizing nm with
  | nil => rfl
  | cons a t ih =>
    show (match worker a nm with
      | .ok s => runWorkers worker (t ++ l2) s
      | .error e => .error e) = _
    cases h : worker a nm with
    | ok s =>
      show runWorkers worker (t ++ l2) s = _
      rw [ih s]
      show _ = (match (match worker a nm with
        | .ok s => runWorkers worker t s
        | .error e => .error e) with
        | .ok s => runWorkers worker l2 s
        | .error e => .error e)
      rw [h]
    | error e =>
      show _ = (match (match worker a nm with
        | .ok s => runWorkers worker t s
        | .error e => .error e) with
        | .ok s => runWorkers worker l2 s
        | .error e => .error e)
      rw [h]

/-- The loop that starts the workers in increasing order of their rows. -/
theorem forLoop_eq_runWorkers (worker : Nat → Matrix T → Result (Matrix T)) (n : Nat)
    (nm : Matrix T) :
    forLoop n worker nm = runWorkers worker (List.range n) nm := by
  induction n with
  | zero => rfl
  | succ m ih =>
    rw [forLoop_succ, List.range_succ, runWorkers_append, ← ih]
    cases forLoop m worker nm with
    | ok s =>
      show worker m s = (match worker m s with
        | .ok s1 => .ok s1
        | .error e => .error e)
      cases worker m s <;> rfl
    | error e => rfl

/-- Workers run in any order over distinct rows: each row that has a worker is filled, the
other rows are as before. -/
theorem runWorkers_cells (r c : Nat) (f : Nat → Nat → T)
    (worker : Nat → Matrix T → Result (Matrix T))
    (hworker : ∀ row nm, row < r → nm._rows = r → nm._cols = c →
      nm._matrix.length = r * c →
      ∃ nm2 : Matrix T, worker row nm = .ok nm2 ∧ RowFrame row nm nm2 ∧
        ∀ j, j < c → nm2._matrix[c * row + j]? = some (f row j))
    (order : List Nat) (hnd : order.Nodup) (hlt : ∀ i ∈ order, i < r)
    (nm : Matrix T) (hr : nm._rows = r) (hc : nm._cols = c)
    (hlen : nm._matrix.length = r * c) :
    ∃ R : Matrix T, runWorkers worker order nm = .ok R ∧
      R._rows = r ∧ R._cols = c ∧ R._matrix.length = r * c ∧
      (∀ i j, i ∈ order → j < c → R._matrix[c * i + j]? = some (f i j)) ∧
      (∀ i j, i ∉ order → j < c → R._matrix[c * i + j]? = nm._matrix[c * i + j]?) := by
  induction order generalizing nm with
  | nil =>
    exact ⟨nm, rfl, hr, hc, hlen, fun i j hi => absurd hi (List.not_mem_nil i),
      fun _ _ _ _ => rfl⟩
  | cons a t ih =>
    have ha : a < r := hlt a (List.mem_cons_self a t)
    obtain ⟨nm1, hrun1, ⟨f1, f2, f3, f4⟩, hrow⟩ := hworker a nm ha hr hc hlen
    obtain ⟨hat, hndt⟩ := List.nodup_cons.mp hnd
    obtain ⟨R, hrunR, r1, r2, r3, r4, r5⟩ := ih hndt
      (fun i hi => hlt i (List.mem_cons_of_mem a hi)) nm1 (f1.trans hr) (f2.trans hc)
      (f3.trans hlen)
    refine ⟨R, ?_, r1, r2, r3, ?_, ?_⟩
    · show (match worker a nm with
        | .ok s => runWorkers worker t s
        | .error e => .error e) = _
      rw [hrun1]
      exact hrunR
    · intro i j hi hj
      rcases List.mem_cons.mp hi with hia | hit
      · subst hia
        rw [r5 i j hat hj]
        exact hrow j hj
      · exact r4 i j hit hj
    · intro i j hi hj
      have hia : i ≠ a := fun e => hi (e ▸ List.mem_cons_self a t)
      have hit : i ∉ t := fun e => hi (List.mem_cons_of_mem a e)
      rw [r5 i j hit hj]
      apply f4
      rw [hc]
      exact other_row_outside hj hia

/-- The result of the workers does not depend on the order in which they run. -/
theorem runWorkers_perm (r c : Nat) (f : Nat → Nat → T)
    (worker : Nat → Matrix T → Result (Matrix T))
    (hworker : ∀ row nm, row < r → nm._rows = r → nm._cols = c →
      nm._matrix.length = r * c →
      ∃ nm2 : Matrix T, worker row nm = .ok nm2 ∧ RowFrame row nm nm2 ∧
        ∀ j, j < c → nm2._matrix[c * row + j]? = some (f row j))
    (order : List Nat) (hperm : order.Perm (List.range r))
    (nm : Matrix T) (hr : nm._rows = r) (hc : nm._cols = c)
    (hlen : nm._matrix.length = r * c) :
    runWorkers worker order nm = forLoop r worker nm := by
  rw [forLoop_eq_runWorkers]
  obtain ⟨R1, hrun1, a1, a2, a3, a4, _⟩ := runWorkers_cells r c f worker hworker order
    (hperm.nodup_iff.mpr (List.nodup_range r))
    (fun i hi => List.mem_range.mp (hperm.mem_iff.mp hi)) nm hr hc hlen
  obtain ⟨R2, hrun2, b1, b2, b3, b4, _⟩ := runWorkers_cells r c f worker hworker
    (List.range r) (List.nodup_range r) (fun i hi => List.mem_range.mp hi) nm hr hc hlen
  rw [hrun1, hrun2]
  congr 1
  exact Matrix.ext_cells a1 a2 a3
    (fun i j hi hj => a4 i j (hperm.mem_iff.mpr (List.mem_range.mpr hi)) hj)
    b1 b2 b3 (fun i j hi hj => b4 i j (List.mem_range.mpr hi) hj)

/-- An iteration of `_addParallel` that returns has stored into a cell of its row. -/
theorem addCell_ok_assign [Add T] {A B s s2 : Matrix T} {row j : Nat}
    (h : addCell A B row j s = .ok s2) : ∃ v, s.assignCell row j v = .ok s2 := by
  unfold addCell at h
  split at h
  · cases h
  · split at h
    · cases h
    · exact ⟨_, h⟩

/-- An iteration of `_multParallel` that returns has stored into a cell of its row. -/
theorem mulCell_ok_assign [Zero T] [Add T] [Mul T] {A B s s2 : Matrix T} {row j : Nat}
    (h : mulCell A B row j s = .ok s2) : ∃ v, s.assignCell row j v = .ok s2 := by
  unfold mulCell at h
  split at h
  · cases h
  · exact ⟨_, h⟩

/-- The worker `_addParallel` on well-formed operands of the same dimensions and a result
matrix of those dimensions. -/
theorem addParallel_worker [Zero T] [Add T] (A B : Matrix T)
    (hAm : A.machine) (hAs : A.storageInv) (hBm : B.machine) (hBs : B.storageInv)
    (hr : A._rows = B._rows) (hc : A._cols = B._cols)
    (row : Nat) (nm : Matrix T) (hrow : row < A._rows)
    (h1 : nm._rows = A._rows) (h2 : nm._cols = A._cols)
    (h3 : nm._matrix.length = A._rows * A._cols) :
    ∃ nm2 : Matrix T, A._addParallel B nm row = .ok nm2 ∧ RowFrame row nm nm2 ∧
      ∀ j, j < A._cols →
        nm2._matrix[A._cols * row + j]? = some (A.cell row j + B.cell row j) := by
  unfold Matrix._addParallel
  exact row_worker_cells A._rows A._cols (fun i j => A.cell i j + B.cell i j)
    (Matrix.count_lt hAm hAs) row hrow (addCell A B row)
    (by
      intro j s hj _ _ _
      unfold addCell
      rw [Matrix.operator_call_in_range hAm hAs hrow hj,
        Matrix.operator_call_in_range hBm hBs (hr ▸ hrow) (hc ▸ hj)])
    nm h1 h2 h3

/-- The worker `_multParallel` on well-formed operands and a result matrix of the dimensions
of the product. -/
theorem multParallel_worker [Zero T] [Add T] [Mul T] (A C : Matrix T)
    (hAm : A.machine) (hAs : A.storageInv) (hCm : C.machine) (hCs : C.storageInv)
    (hdim : A._cols = C._rows) (hfit : A._rows * C._cols < UINT_RANGE)
    (row : Nat) (nm : Matrix T) (hrow : row < A._rows)
    (h1 : nm._rows = A._rows) (h2 : nm._cols = C._cols)
    (h3 : nm._matrix.length = A._rows * C._cols) :
    ∃ nm2 : Matrix T, A._multParallel C nm row = .ok nm2 ∧ RowFrame row nm nm2 ∧
      ∀ j, j < C._cols → nm2._matrix[C._cols * row + j]? = some (dotSum A C row j) := by
  unfold Matrix._multParallel
  exact row_worker_cells A._rows C._cols (dotSum A C) hfit row hrow (mulCell A C row)
    (by
      intro j s hj _ _ _
      unfold mulCell
      rw [dot_loop A C hAm hAs hCm hCs hdim hrow hj])
    nm h1 h2 h3

/-- The storage positions of two distinct rows are disjoint. -/
theorem rows_disjoint (c r1 r2 p : Nat) (hne : r1 ≠ r2) :
    ¬ ((r1 * c ≤ p ∧ p < r1 * c + c) ∧ (r2 * c ≤ p ∧ p < r2 * c + c)) := by
  rintro ⟨⟨a1, a2⟩, ⟨b1, b2⟩⟩
  rcases Nat.lt_or_gt_of_ne hne with h | h
  · have : (r1 + 1) * c ≤ r2 * c := Nat.mul_le_mul_right c h
    rw [Nat.succ_mul] at this
    omega
  · have : (r2 + 1) * c ≤ r1 * c := Nat.mul_le_mul_right c h
    rw [Nat.succ_mul] at this
    omega

end Workers

/-! ## The claims -/

section Claims

variable {T : Type}

/-- C2: in both execution modes, `A + B` throws `WrongDimensionsException` exactly when the
row counts or the column counts differ, `A - B` likewise, and `A * B` throws it exactly when
`A.cols` differs from `B.rows`. -/
theorem dimension_mismatch_iff [Zero T] [Add T] [Sub T] [Mul T] (isParallel : Bool)
    (A B : Matrix T) :
    (A.operator_plus isParallel B = .error .WrongDimensionsException ↔
        (A._rows ≠ B._rows ∨ A._cols ≠ B._cols)) ∧
    (A.operator_minus B = .error .WrongDimensionsException ↔
        (A._rows ≠ B._rows ∨ A._cols ≠ B._cols)) ∧
    (A.operator_mul isParallel B = .error .WrongDimensionsException ↔
        A._cols ≠ B._rows) := by
  refine ⟨⟨?_, ?_⟩, ⟨?_, ?_⟩, ⟨?_, ?_⟩⟩
  · intro h
    by_contra hd
    unfold Matrix.operator_plus at h
    rw [if_neg hd] at h
    cases isParallel with
    | true =>
      rw [if_pos rfl] at h
      exact forLoop_ne_error _ _ (fun i nm =>
        forLoop_ne_error _ _ (fun j s => addCell_ne_wrong A B i j s) _ _) _ _ h
    | false =>
      rw [if_neg (by decide)] at h
      exact forLoop_ne_error _ _ (fun i nm => addAt_ne_wrong B i nm) _ _ h
  · intro hd
    unfold Matrix.operator_plus
    rw [if_pos hd]
  · intro h
    by_contra hd
    unfold Matrix.operator_minus at h
    rw [if_neg hd] at h
    exact forLoop_ne_error _ _ (fun i nm => subAt_ne_wrong B i nm) _ _ h
  · intro hd
    unfold Matrix.operator_minus
    rw [if_pos hd]
  · intro h
    by_contra hd
    unfold Matrix.operator_mul at h
    rw [if_neg (fun hne => hne hd)] at h
    cases hc : (Matrix.ctorSized A._rows B._cols : Result (Matrix T)) with
    | error e =>
      rw [hc] at h
      injection h with h
      subst h
      exact Matrix.ctorSized_ne_wrong _ _ hc
    | ok nm =>
      rw [hc] at h
      dsimp only at h
      cases isParallel with
      | true =>
        rw [if_pos rfl] at h
        exact forLoop_ne_error _ _ (fun i s =>
          forLoop_ne_error _ _ (fun j s1 => mulCell_ne_wrong A B i j s1) _ _) _ _ h
      | false =>
        rw [if_neg (by decide)] at h
        exact forLoop_ne_error _ _ (fun i s =>
          forLoop_ne_error _ _ (fun j s1 => mulCell_ne_wrong A B i j s1) _ _) _ _ h
  · intro hd
    unfold Matrix.operator_mul
    rw [if_pos hd]

/-- C3 (the code at the failing input): on the 2x2 matrix `[1,2,3,4]` both overloads of
`operator()` accept `(0, 2)`, whose column is not below `cols`, and return the element of the
cell `(1, 0)`; they accept `(2, 2)` too, whose index lies outside the storage. -/
theorem operator_call_accepts_col_eq_cols :
    (Matrix.mk 2 2 [(1 : Int), 2, 3, 4]).operator_call 0 2 = .ok 3 ∧
    (Matrix.mk 2 2 [(1 : Int), 2, 3, 4]).readRef 0 2 = .ok 3 ∧
    (Matrix.mk 2 2 [(1 : Int), 2, 3, 4]).operator_call 2 2 = .error .UndefinedBehaviour ∧
    (Matrix.mk 2 2 [(1 : Int), 2, 3, 4]).operator_call_ref 2 2 =
      .error .UndefinedBehaviour ∧
    (Matrix.mk 2 2 [(1 : Int), 2, 3, 4]).operator_call 0 3 = .error .OutOfMatrixException :=
  ⟨rfl, rfl, rfl, rfl, rfl⟩

/-- C4 (the code at the failing input): `operator==` compares the backing vectors only, so the
2x3 and the 3x2 matrix that hold the sequence `[1,2,3,4,5,6]` compare equal, and `operator!=`
returns false on them. -/
theorem operator_eq_ignores_dimensions :
    (Matrix.mk 2 3 [(1 : Int), 2, 3, 4, 5, 6]).operator_eq
        (Matrix.mk 3 2 [(1 : Int), 2, 3, 4, 5, 6]) = true ∧
    (Matrix.mk 2 3 [(1 : Int), 2, 3, 4, 5, 6]).operator_ne
        (Matrix.mk 3 2 [(1 : Int), 2, 3, 4, 5, 6]) = false ∧
    (Matrix.mk 2 3 [(1 : Int), 2, 3, 4, 5, 6]).storageInv ∧
    (Matrix.mk 3 2 [(1 : Int), 2, 3, 4, 5, 6]).storageInv := by
  refine ⟨by decide, by decide, by decide, by decide⟩

/-- C5 as stated fails: `Matrix(65536, 65536)` succeeds with an empty storage, the loop bound
`rows * cols` being zero as an `unsigned int`, so the storage does not hold `65536 * 65536`
elements. -/
theorem ctorSized_count_wraps :
    (Matrix.ctorSized 65536 65536 : Result (Matrix Int)) = .ok (Matrix.mk 65536 65536 []) ∧
    ¬ (∃ M : Matrix Int, Matrix.ctorSized 65536 65536 = .ok M ∧
        M._matrix.length = 65536 * 65536) := by
  have h : (Matrix.ctorSized 65536 65536 : Result (Matrix Int)) =
      .ok (Matrix.mk 65536 65536 []) := by
    rw [Matrix.ctorSized_ok 65536 65536 (by decide)]
    rfl
  refine ⟨h, ?_⟩
  rintro ⟨M, hM, hlen⟩
  rw [h] at hM
  injection hM with hM
  subst hM
  simp at hlen

/-- C5, amended: `Matrix(rows, cols)` throws `IllegalMatrixException` exactly when one of
`rows`, `cols` is zero and the other is not; otherwise it succeeds with dimensions
`(rows, cols)` and a storage of `rows * cols mod 2^32` elements, all `T(0)`; that count is
`rows * cols` whenever the product is below `2^32`. -/
theorem ctorSized_spec [Zero T] (rows cols : Nat) :
    ((Matrix.ctorSized rows cols : Result (Matrix T)) = .error .IllegalMatrixException ↔
        ((rows = 0 ∧ cols ≠ 0) ∨ (rows ≠ 0 ∧ cols = 0))) ∧
    (¬ ((rows = 0 ∧ cols ≠ 0) ∨ (rows ≠ 0 ∧ cols = 0)) →
      ∃ M : Matrix T, Matrix.ctorSized rows cols = .ok M ∧
        M._rows = rows ∧ M._cols = cols ∧
        M._matrix.length = (rows * cols) % UINT_RANGE ∧
        (∀ x ∈ M._matrix, x = 0) ∧
        (rows * cols < UINT_RANGE → M._matrix.length = rows * cols)) := by
  refine ⟨⟨?_, ?_⟩, ?_⟩
  · intro h
    by_contra hd
    rw [Matrix.ctorSized_ok rows cols hd] at h
    cases h
  · intro hd
    unfold Matrix.ctorSized
    rw [if_pos hd]
  · intro hd
    refine ⟨_, Matrix.ctorSized_ok rows cols hd, rfl, rfl, ?_, ?_, ?_⟩
    · simp
    · intro x hx
      exact (List.mem_replicate.mp hx).2
    · intro hfit
      simp [Nat.mod_eq_of_lt hfit]

/-- C5, amended, at `rows = 2`, `cols = 3` (and the guard at `(0, 3)`). -/
theorem ctorSized_spec_witness :
    (Matrix.ctorSized 0 3 : Result (Matrix Int)) = .error .IllegalMatrixException ∧
    ∃ M : Matrix Int, Matrix.ctorSized 2 3 = .ok M ∧
        M._rows = 2 ∧ M._cols = 3 ∧
        M._matrix.length = (2 * 3) % UINT_RANGE ∧
        (∀ x ∈ M._matrix, x = 0) ∧
        (2 * 3 < UINT_RANGE → M._matrix.length = 2 * 3) :=
  ⟨(ctorSized_spec 0 3).1.2 (by decide), (ctorSized_spec 2 3).2 (by decide)⟩

/-- C6 as stated fails: `Matrix(65536, 65536, cells)` with an empty `cells` does not throw
`IllegalVectorException`, although the length 0 of `cells` is not `65536 * 65536`. -/
theorem ctorCells_count_wraps :
    ([] : List Int).length ≠ 65536 * 65536 ∧
    Matrix.ctorCells 65536 65536 ([] : List Int) ≠ .error .IllegalVectorException ∧
    Matrix.ctorCells 65536 65536 ([] : List Int) = .ok (Matrix.mk 65536 65536 []) := by
  refine ⟨by decide, ?_, rfl⟩
  intro h
  cases h

/-- C6, amended: `Matrix(rows, cols, cells)` throws `IllegalMatrixException` when exactly one
of `rows`, `cols` is zero, whatever `cells` is; otherwise it throws `IllegalVectorException`
exactly when the length of `cells` differs from `rows * cols mod 2^32` (from `rows * cols` when
that product is below `2^32`); otherwise it succeeds with dimensions `(rows, cols)` and storage
`cells`. -/
theorem ctorCells_spec (rows cols : Nat) (cells : List T) :
    (((rows = 0 ∧ cols ≠ 0) ∨ (rows ≠ 0 ∧ cols = 0)) →
      Matrix.ctorCells rows cols cells = .error .IllegalMatrixException) ∧
    (¬ ((rows = 0 ∧ cols ≠ 0) ∨ (rows ≠ 0 ∧ cols = 0)) →
      (Matrix.ctorCells rows cols cells = .error .IllegalVectorException ↔
        cells.length ≠ (rows * cols) % UINT_RANGE) ∧
      (rows * cols < UINT_RANGE →
        (Matrix.ctorCells rows cols cells = .error .IllegalVectorException ↔
          cells.length ≠ rows * cols)) ∧
      (cells.length = (rows * cols) % UINT_RANGE →
        Matrix.ctorCells rows cols cells = .ok (Matrix.mk rows cols cells))) := by
  refine ⟨?_, ?_⟩
  · intro hd
    unfold Matrix.ctorCells
    rw [if_pos hd]
  · intro hd
    have hiff : Matrix.ctorCells rows cols cells = .error .IllegalVectorException ↔
        cells.length ≠ (rows * cols) % UINT_RANGE := by
      unfold Matrix.ctorCells
      rw [if_neg hd]
      by_cases hl : cells.length ≠ (rows * cols) % UINT_RANGE
      · rw [if_pos hl]; exact ⟨fun _ => hl, fun _ => rfl⟩
      · rw [if_neg hl]
        exact ⟨fun h => (by cases h), fun h => absurd h hl⟩
    refine ⟨hiff, ?_, ?_⟩
    · intro hfit
      rw [hiff, Nat.mod_eq_of_lt hfit]
    · intro hl
      unfold Matrix.ctorCells
      rw [if_neg hd, if_neg (by intro h; exact h hl)]

/-- C6, amended, at `rows = 2`, `cols = 3` with five cells (the scenario of the
specification), with six cells, and at `rows = 0`, `cols = 3`. -/
theorem ctorCells_spec_witness :
    Matrix.ctorCells 0 3 [(1 : Int), 2, 3] = .error .IllegalMatrixException ∧
    Matrix.ctorCells 2 3 [(1 : Int), 2, 3, 4, 5] = .error .IllegalVectorException ∧
    Matrix.ctorCells 2 3 [(1 : Int), 2, 3, 4, 5, 6] =
      .ok (Matrix.mk 2 3 [1, 2, 3, 4, 5, 6]) :=
  ⟨(ctorCells_spec 0 3 [(1 : Int), 2, 3]).1 (by decide),
   ((ctorCells_spec 2 3 [(1 : Int), 2, 3, 4, 5]).2 (by decide)).1.mpr (by decide),
   ((ctorCells_spec 2 3 [(1 : Int), 2, 3, 4, 5, 6]).2 (by decide)).2.2 (by decide)⟩

/-- C7 as stated fails: `Matrix(65536, 65536, cells)` with an empty `cells` succeeds, and
reading the cell `(0, 0)` of the matrix it builds indexes the empty storage. -/
theorem row_major_count_wraps :
    Matrix.ctorCells 65536 65536 ([] : List Int) = .ok (Matrix.mk 65536 65536 []) ∧
    (0 : Nat) < 65536 ∧
    (Matrix.mk 65536 65536 ([] : List Int)).operator_call 0 0 = .error .UndefinedBehaviour ∧
    (Matrix.mk 65536 65536 ([] : List Int)).readRef 0 0 = .error .UndefinedBehaviour :=
  ⟨rfl, by decide, rfl, rfl⟩

/-- C7, amended: when `rows * cols` is below `2^32`, the matrix `M` built by
`Matrix(rows, cols, cells)` is laid out row-major: for `i < rows` and `j < cols`, both
overloads of `M(i, j)` return `cells[i * cols + j]`; after `M(i, j) = v` both return `v` at
`(i, j)`, and what they return at every other in-range position is unchanged. -/
theorem row_major_layout (rows cols : Nat) (cells : List T) (M : Matrix T)
    (hM : Matrix.ctorCells rows cols cells = .ok M) (hfit : rows * cols < UINT_RANGE)
    (i j : Nat) (hi : i < rows) (hj : j < cols) :
    ∃ x, cells[i * cols + j]? = some x ∧
      M.operator_call i j = .ok x ∧ M.readRef i j = .ok x ∧
      ∀ v : T, ∃ M2, M.assignCell i j v = .ok M2 ∧
        M2.operator_call i j = .ok v ∧ M2.readRef i j = .ok v ∧
        ∀ i2 j2, i2 < rows → j2 < cols → (i2, j2) ≠ (i, j) →
          M2.operator_call i2 j2 = M.operator_call i2 j2 ∧
          M2.readRef i2 j2 = M.readRef i2 j2 := by
  unfold Matrix.ctorCells at hM
  split_ifs at hM with h1 h2
  injection hM with hM
  subst hM
  have hlen : cells.length = rows * cols := by
    rw [Nat.mod_eq_of_lt hfit] at h2
    exact not_not.mp h2
  have hlt : cols * i + j < cells.length := by rw [hlen]; exact index_lt hi hj
  have hidx : i * cols + j = cols * i + j := by rw [Nat.mul_comm]
  refine ⟨cells[cols * i + j], ?_, ?_, ?_, ?_⟩
  · rw [hidx]; exact List.getElem?_eq_getElem hlt
  · rw [Matrix.operator_call_eq_vecRead rfl rfl hfit hi hj]
    exact vecRead_of_getElem? (List.getElem?_eq_getElem hlt)
  · rw [Matrix.readRef_eq_vecRead rfl rfl hlen hfit hi hj]
    exact vecRead_of_getElem? (List.getElem?_eq_getElem hlt)
  · intro v
    refine ⟨_, Matrix.assignCell_of_dims rfl rfl hlen hfit hi hj v, ?_, ?_, ?_⟩
    · rw [Matrix.operator_call_eq_vecRead rfl rfl hfit hi hj]
      apply vecRead_of_getElem?
      simp [List.getElem?_set, hlt]
    · rw [Matrix.readRef_eq_vecRead rfl rfl (by simp [hlen]) hfit hi hj]
      apply vecRead_of_getElem?
      simp [List.getElem?_set, hlt]
    · intro i2 j2 hi2 hj2 hne
      have hne2 : cols * i + j ≠ cols * i2 + j2 := by
        intro heq
        obtain ⟨e1, e2⟩ := index_inj hj hj2 heq
        exact hne (by rw [e1, e2])
      constructor
      · rw [Matrix.operator_call_eq_vecRead rfl rfl hfit hi2 hj2,
          Matrix.operator_call_eq_vecRead rfl rfl hfit hi2 hj2]
        unfold vecRead
        simp only [List.getElem?_set, if_neg hne2]
      · rw [Matrix.readRef_eq_vecRead rfl rfl (by simp [hlen]) hfit hi2 hj2,
          Matrix.readRef_eq_vecRead rfl rfl hlen hfit hi2 hj2]
        unfold vecRead
        simp only [List.getElem?_set, if_neg hne2]

/-- C7, amended, on the 2x3 matrix built from `[1,2,3,4,5,6]`, at the cell `(1, 2)`. -/
theorem row_major_layout_witness :
    ∃ x, [(1 : Int), 2, 3, 4, 5, 6][1 * 3 + 2]? = some x ∧
      (Matrix.mk 2 3 [(1 : Int), 2, 3, 4, 5, 6]).operator_call 1 2 = .ok x ∧
      (Matrix.mk 2 3 [(1 : Int), 2, 3, 4, 5, 6]).readRef 1 2 = .ok x ∧
      ∀ v : Int, ∃ M2, (Matrix.mk 2 3 [(1 : Int), 2, 3, 4, 5, 6]).assignCell 1 2 v = .ok M2 ∧
        M2.operator_call 1 2 = .ok v ∧ M2.readRef 1 2 = .ok v ∧
        ∀ i2 j2, i2 < 2 → j2 < 3 → (i2, j2) ≠ (1, 2) →
          M2.operator_call i2 j2 =
            (Matrix.mk 2 3 [(1 : Int), 2, 3, 4, 5, 6]).operator_call i2 j2 ∧
          M2.readRef i2 j2 = (Matrix.mk 2 3 [(1 : Int), 2, 3, 4, 5, 6]).readRef i2 j2 :=
  row_major_layout 2 3 [(1 : Int), 2, 3, 4, 5, 6] (Matrix.mk 2 3 [(1 : Int), 2, 3, 4, 5, 6])
    rfl (by decide) 1 2 (by decide) (by decide)

/-- C1 as stated fails: the 65536x1 and the 1x65536 zero matrices satisfy the storage
invariants and may be multiplied, but the result matrix `Matrix(65536, 65536)` is built
with an empty storage, and in both modes the first store `newMatrix(0, 0) = cell` indexes it
out of range, so that no matrix is returned. -/
theorem operator_mul_result_count_wraps :
    (Matrix.mk 65536 1 (List.replicate 65536 (0 : Int))).storageInv ∧
    (Matrix.mk 1 65536 (List.replicate 65536 (0 : Int))).storageInv ∧
    (Matrix.ctorSized 65536 1 : Result (Matrix Int)) =
      .ok (Matrix.mk 65536 1 (List.replicate 65536 0)) ∧
    (Matrix.ctorSized 1 65536 : Result (Matrix Int)) =
      .ok (Matrix.mk 1 65536 (List.replicate 65536 0)) ∧
    (Matrix.mk 65536 1 (List.replicate 65536 (0 : Int)))._cols =
      (Matrix.mk 1 65536 (List.replicate 65536 (0 : Int)))._rows ∧
    (Matrix.mk 65536 1 (List.replicate 65536 (0 : Int))).operator_mul false
      (Matrix.mk 1 65536 (List.replicate 65536 (0 : Int))) = .error .UndefinedBehaviour ∧
    (Matrix.mk 65536 1 (List.replicate 65536 (0 : Int))).operator_mul true
      (Matrix.mk 1 65536 (List.replicate 65536 (0 : Int))) = .error .UndefinedBehaviour :=
  ⟨⟨by decide, List.length_replicate 65536 0⟩, ⟨by decide, List.length_replicate 65536 0⟩,
    (Matrix.ctorSized_ok 65536 1 (by decide)).trans
      (congrArg (fun n => Except.ok (Matrix.mk 65536 1 (List.replicate n (0 : Int))))
        (by decide : 65536 * 1 % UINT_RANGE = 65536)),
    (Matrix.ctorSized_ok 1 65536 (by decide)).trans
      (congrArg (fun n => Except.ok (Matrix.mk 1 65536 (List.replicate n (0 : Int))))
        (by decide : 1 * 65536 % UINT_RANGE = 65536)),
    rfl,
    Matrix.operator_mul_wrapped false _ _ rfl rfl (by decide) (by decide) (by decide)
      (Matrix.operator_call_zeros 65536 1 65536 (by decide) (by decide) (by decide) (by decide))
      (Matrix.operator_call_zeros 1 65536 65536 (by decide) (by decide) (by decide) (by decide)),
    Matrix.operator_mul_wrapped true _ _ rfl rfl (by decide) (by decide) (by decide)
      (Matrix.operator_call_zeros 65536 1 65536 (by decide) (by decide) (by decide) (by decide))
      (Matrix.operator_call_zeros 1 65536 65536 (by decide) (by decide) (by decide) (by decide))⟩

/-- C1, amended: for matrices `A` and `B` that satisfy the storage invariants, with
`A.cols = B.rows` and with `A.rows * B.cols` below `2^32`, `operator*` returns, in both modes,
a matrix with `rows = A.rows` and `cols = B.cols` whose element `(i, j)`, for `i < A.rows` and
`j < B.cols`, is the sum over `k < A.cols` of `A(i,k) * B(k,j)` accumulated from `T(0)` in
increasing `k`. -/
theorem operator_mul_spec [Zero T] [Add T] [Mul T] (isParallel : Bool) (A B : Matrix T)
    (hAm : A.machine) (hAs : A.storageInv) (hBm : B.machine) (hBs : B.storageInv)
    (hdim : A._cols = B._rows) (hfit : A._rows * B._cols < UINT_RANGE) :
    (∃ R : Matrix T, A.operator_mul isParallel B = .ok R ∧
      R._rows = A._rows ∧ R._cols = B._cols ∧
      ∀ i j, i < A._rows → j < B._cols → R.operator_call i j = .ok (dotSum A B i j)) ∧
    (∀ i k, i < A._rows → k < A._cols → A.operator_call i k = .ok (A.cell i k)) ∧
    (∀ k j, k < B._rows → j < B._cols → B.operator_call k j = .ok (B.cell k j)) := by
  refine ⟨?_, fun i k hi hk => Matrix.operator_call_in_range hAm hAs hi hk,
    fun k j hk hj => Matrix.operator_call_in_range hBm hBs hk hj⟩
  obtain ⟨R, hrun, h1, h2, _, h4⟩ :=
    Matrix.operator_mul_cells isParallel A B hAm hAs hBm hBs hdim hfit
  refine ⟨R, hrun, h1, h2, ?_⟩
  intro i j hi hj
  exact Matrix.operator_call_of_getElem? h1 h2 hfit hi hj (h4 i j hi hj)

/-- C1, amended, on the scenario of the specification: the 2x3 matrix `[1,2,3,4,5,6]` times
the 3x2 matrix `[7,8,9,10,11,12]` is the 2x2 matrix `[58,64,139,154]`. -/
theorem operator_mul_spec_witness :
    (Matrix.mk 2 3 [(1 : Int), 2, 3, 4, 5, 6]).operator_mul false
        (Matrix.mk 3 2 [(7 : Int), 8, 9, 10, 11, 12]) = .ok (Matrix.mk 2 2 [58, 64, 139, 154]) ∧
    (Matrix.mk 2 3 [(1 : Int), 2, 3, 4, 5, 6]).operator_mul true
        (Matrix.mk 3 2 [(7 : Int), 8, 9, 10, 11, 12]) = .ok (Matrix.mk 2 2 [58, 64, 139, 154]) ∧
    ((∃ R : Matrix Int, (Matrix.mk 2 3 [(1 : Int), 2, 3, 4, 5, 6]).operator_mul false
        (Matrix.mk 3 2 [(7 : Int), 8, 9, 10, 11, 12]) = .ok R ∧
      R._rows = 2 ∧ R._cols = 2 ∧
      ∀ i j, i < 2 → j < 2 → R.operator_call i j =
        .ok (dotSum (Matrix.mk 2 3 [(1 : Int), 2, 3, 4, 5, 6])
          (Matrix.mk 3 2 [(7 : Int), 8, 9, 10, 11, 12]) i j)) ∧
    (∀ i k, i < 2 → k < 3 → (Matrix.mk 2 3 [(1 : Int), 2, 3, 4, 5, 6]).operator_call i k =
        .ok ((Matrix.mk 2 3 [(1 : Int), 2, 3, 4, 5, 6]).cell i k)) ∧
    (∀ k j, k < 3 → j < 2 → (Matrix.mk 3 2 [(7 : Int), 8, 9, 10, 11, 12]).operator_call k j =
        .ok ((Matrix.mk 3 2 [(7 : Int), 8, 9, 10, 11, 12]).cell k j))) :=
  ⟨rfl, rfl, operator_mul_spec false (Matrix.mk 2 3 [(1 : Int), 2, 3, 4, 5, 6])
    (Matrix.mk 3 2 [(7 : Int), 8, 9, 10, 11, 12])
    (by decide) (by decide) (by decide) (by decide) rfl (by decide)⟩

/-- C8: for matrices `A` and `B` of equal dimensions that satisfy the storage invariants,
`A + B` (in both modes) and `A - B` succeed and return a matrix with the dimensions of `A`
whose element at every position `(i, j)` is `A(i,j) + B(i,j)`, respectively
`A(i,j) - B(i,j)`.  The operands are objects of the program: `machine` is what the
constructors establish of every object (`Matrix.ctorSized_machine`,
`Matrix.ctorCells_machine`). -/
theorem operator_plus_minus_spec [Zero T] [Add T] [Sub T] (isParallel : Bool)
    (A B : Matrix T)
    (hAm : A.machine) (hAs : A.storageInv) (hBm : B.machine) (hBs : B.storageInv)
    (hr : A._rows = B._rows) (hc : A._cols = B._cols) :
    (∃ R : Matrix T, A.operator_plus isParallel B = .ok R ∧
      R._rows = A._rows ∧ R._cols = A._cols ∧
      ∀ i j, i < A._rows → j < A._cols →
        R.operator_call i j = .ok (A.cell i j + B.cell i j)) ∧
    (∃ R : Matrix T, A.operator_minus B = .ok R ∧
      R._rows = A._rows ∧ R._cols = A._cols ∧
      ∀ i j, i < A._rows → j < A._cols →
        R.operator_call i j = .ok (A.cell i j - B.cell i j)) ∧
    (∀ i j, i < A._rows → j < A._cols →
      A.operator_call i j = .ok (A.cell i j) ∧ B.operator_call i j = .ok (B.cell i j)) := by
  have hfit := Matrix.count_lt hAm hAs
  refine ⟨?_, ?_, fun i j hi hj => ⟨Matrix.operator_call_in_range hAm hAs hi hj,
    Matrix.operator_call_in_range hBm hBs (hr ▸ hi) (hc ▸ hj)⟩⟩
  · obtain ⟨R, hrun, h1, h2, _, h4⟩ :=
      Matrix.operator_plus_cells isParallel A B hAm hAs hBm hBs hr hc
    exact ⟨R, hrun, h1, h2, fun i j hi hj =>
      Matrix.operator_call_of_getElem? h1 h2 hfit hi hj (h4 i j hi hj)⟩
  · obtain ⟨R, hrun, h1, h2, _, h4⟩ :=
      Matrix.operator_minus_cells A B hAm hAs hBm hBs hr hc
    exact ⟨R, hrun, h1, h2, fun i j hi hj =>
      Matrix.operator_call_of_getElem? h1 h2 hfit hi hj (h4 i j hi hj)⟩

/-- C8 on the 2x2 matrices `[1,2,3,4]` and `[10,20,30,40]`, in parallel mode. -/
theorem operator_plus_minus_spec_witness :
    (Matrix.mk 2 2 [(1 : Int), 2, 3, 4]).operator_plus true (Matrix.mk 2 2 [10, 20, 30, 40]) =
      .ok (Matrix.mk 2 2 [11, 22, 33, 44]) ∧
    (Matrix.mk 2 2 [(1 : Int), 2, 3, 4]).operator_minus (Matrix.mk 2 2 [10, 20, 30, 40]) =
      .ok (Matrix.mk 2 2 [-9, -18, -27, -36]) ∧
    ((∃ R : Matrix Int, (Matrix.mk 2 2 [(1 : Int), 2, 3, 4]).operator_plus true
        (Matrix.mk 2 2 [10, 20, 30, 40]) = .ok R ∧
      R._rows = 2 ∧ R._cols = 2 ∧
      ∀ i j, i < 2 → j < 2 →
        R.operator_call i j = .ok ((Matrix.mk 2 2 [(1 : Int), 2, 3, 4]).cell i j +
          (Matrix.mk 2 2 [(10 : Int), 20, 30, 40]).cell i j)) ∧
    (∃ R : Matrix Int, (Matrix.mk 2 2 [(1 : Int), 2, 3, 4]).operator_minus
        (Matrix.mk 2 2 [10, 20, 30, 40]) = .ok R ∧
      R._rows = 2 ∧ R._cols = 2 ∧
      ∀ i j, i < 2 → j < 2 →
        R.operator_call i j = .ok ((Matrix.mk 2 2 [(1 : Int), 2, 3, 4]).cell i j -
          (Matrix.mk 2 2 [(10 : Int), 20, 30, 40]).cell i j)) ∧
    (∀ i j, i < 2 → j < 2 →
      (Matrix.mk 2 2 [(1 : Int), 2, 3, 4]).operator_call i j =
        .ok ((Matrix.mk 2 2 [(1 : Int), 2, 3, 4]).cell i j) ∧
      (Matrix.mk 2 2 [(10 : Int), 20, 30, 40]).operator_call i j =
        .ok ((Matrix.mk 2 2 [(10 : Int), 20, 30, 40]).cell i j))) :=
  ⟨rfl, rfl, operator_plus_minus_spec true (Matrix.mk 2 2 [(1 : Int), 2, 3, 4])
    (Matrix.mk 2 2 [(10 : Int), 20, 30, 40])
    (by decide) (by decide) (by decide) (by decide) rfl rfl⟩

/-- C9 as stated fails: on the matrix built by `Matrix(65536, 65536)`, whose storage is
empty, sequential `A + A` returns a copy of `A` (its loop bound is zero) while the first row
worker of parallel `A + A` reads `(*this)(0, 0)` out of the storage. -/
theorem parallel_plus_differs_on_wrapped_count :
    (Matrix.ctorSized 65536 65536 : Result (Matrix Int)) = .ok (Matrix.mk 65536 65536 []) ∧
    (Matrix.mk 65536 65536 ([] : List Int)).operator_plus false (Matrix.mk 65536 65536 []) =
      .ok (Matrix.mk 65536 65536 []) ∧
    (Matrix.mk 65536 65536 ([] : List Int)).operator_plus true (Matrix.mk 65536 65536 []) =
      .error .UndefinedBehaviour := by
  refine ⟨?_, rfl, Matrix.operator_plus_parallel_empty _ (by decide) (by decide) rfl⟩
  rw [Matrix.ctorSized_ok 65536 65536 (by decide)]
  rfl

/-- C9, amended: for operands that satisfy the storage invariants, `A + B` computed with the
mode flag on (one row worker per output row) is the result computed with the flag off, and so
is `A * B`: the same matrix, or the same exception. -/
theorem parallel_eq_sequential [Zero T] [Add T] [Mul T] (A B : Matrix T)
    (hAm : A.machine) (hAs : A.storageInv) (hBm : B.machine) (hBs : B.storageInv) :
    A.operator_plus true B = A.operator_plus false B ∧
    A.operator_mul true B = A.operator_mul false B := by
  refine ⟨?_, Matrix.operator_mul_mode A B⟩
  by_cases hd : A._rows ≠ B._rows ∨ A._cols ≠ B._cols
  · unfold Matrix.operator_plus
    rw [if_pos hd, if_pos hd]
  · have hr : A._rows = B._rows := by
      by_contra h; exact hd (Or.inl h)
    have hc : A._cols = B._cols := by
      by_contra h; exact hd (Or.inr h)
    obtain ⟨R1, hrun1, a1, a2, a3, a4⟩ :=
      Matrix.operator_plus_cells true A B hAm hAs hBm hBs hr hc
    obtain ⟨R2, hrun2, b1, b2, b3, b4⟩ :=
      Matrix.operator_plus_cells false A B hAm hAs hBm hBs hr hc
    rw [hrun1, hrun2, Matrix.ext_cells a1 a2 a3 a4 b1 b2 b3 b4]

/-- C9, amended, on the 2x2 matrices `[1,2,3,4]` and `[5,6,7,8]`. -/
theorem parallel_eq_sequential_witness :
    (Matrix.mk 2 2 [(1 : Int), 2, 3, 4]).operator_plus true (Matrix.mk 2 2 [5, 6, 7, 8]) =
      (Matrix.mk 2 2 [(1 : Int), 2, 3, 4]).operator_plus false (Matrix.mk 2 2 [5, 6, 7, 8]) ∧
    (Matrix.mk 2 2 [(1 : Int), 2, 3, 4]).operator_mul true (Matrix.mk 2 2 [5, 6, 7, 8]) =
      (Matrix.mk 2 2 [(1 : Int), 2, 3, 4]).operator_mul false (Matrix.mk 2 2 [5, 6, 7, 8]) :=
  parallel_eq_sequential (Matrix.mk 2 2 [(1 : Int), 2, 3, 4]) (Matrix.mk 2 2 [5, 6, 7, 8])
    (by decide) (by decide) (by decide) (by decide)

/-- C10: for a matrix `M` that satisfies the storage invariants, the generic `trans()`
succeeds and returns a matrix with `rows = M.cols` and `cols = M.rows` whose element `(i, j)`
is `M(j, i)`, for every `i < M.cols` and `j < M.rows`.  `M` is an object of the program:
`machine` is what the constructors establish of every object. -/
theorem trans_spec [Zero T] (M : Matrix T) (hMm : M.machine) (hMs : M.storageInv) :
    ∃ R : Matrix T, M.trans = .ok R ∧ R._rows = M._cols ∧ R._cols = M._rows ∧
      ∀ i j, i < M._cols → j < M._rows →
        R.operator_call i j = .ok (M.cell j i) ∧ M.operator_call j i = .ok (M.cell j i) := by
  obtain ⟨R, hrun, h1, h2, _, h4⟩ := Matrix.trans_cells M hMm hMs
  have hfit : M._cols * M._rows < UINT_RANGE := by
    rw [Nat.mul_comm]; exact Matrix.count_lt hMm hMs
  refine ⟨R, hrun, h1, h2, fun i j hi hj => ⟨?_, ?_⟩⟩
  · exact Matrix.operator_call_of_getElem? h1 h2 hfit hi hj (h4 i j hi hj)
  · exact Matrix.operator_call_in_range hMm hMs hj hi

/-- C10 on the 2x3 matrix `[1,2,3,4,5,6]`, whose transpose is the 3x2 matrix
`[1,4,2,5,3,6]`. -/
theorem trans_spec_witness :
    (Matrix.mk 2 3 [(1 : Int), 2, 3, 4, 5, 6]).trans = .ok (Matrix.mk 3 2 [1, 4, 2, 5, 3, 6]) ∧
    ∃ R : Matrix Int, (Matrix.mk 2 3 [(1 : Int), 2, 3, 4, 5, 6]).trans = .ok R ∧
      R._rows = 3 ∧ R._cols = 2 ∧
      ∀ i j, i < 3 → j < 2 →
        R.operator_call i j = .ok ((Matrix.mk 2 3 [(1 : Int), 2, 3, 4, 5, 6]).cell j i) ∧
        (Matrix.mk 2 3 [(1 : Int), 2, 3, 4, 5, 6]).operator_call j i =
          .ok ((Matrix.mk 2 3 [(1 : Int), 2, 3, 4, 5, 6]).cell j i) :=
  ⟨rfl, trans_spec (Matrix.mk 2 3 [(1 : Int), 2, 3, 4, 5, 6]) (by decide) (by decide)⟩

/-- C11: for a matrix `M` that satisfies the storage invariants (the 0x0 matrix included),
`trans(trans(M))` succeeds and has the dimensions and the storage of `M`; hence
`trans(trans(M)) == M`, the comparison of an element with itself being true.  `M` is an
object of the program (`machine`). -/
theorem trans_round_trip [Zero T] [BEq T] (M : Matrix T)
    (hMm : M.machine) (hMs : M.storageInv) :
    ∃ R R2 : Matrix T, M.trans = .ok R ∧ R.trans = .ok R2 ∧
      R2._rows = M._rows ∧ R2._cols = M._cols ∧ R2._matrix = M._matrix ∧
      ((∀ a : T, (a == a) = true) → R2.operator_eq M = true ∧ R2.operator_ne M = false) := by
  obtain ⟨R, R2, h1, h2, h3⟩ := Matrix.transComplex_involution id (fun _ => rfl) M hMm hMs
  refine ⟨R, R2, by rw [Matrix.trans_eq_transComplex]; exact h1,
    by rw [Matrix.trans_eq_transComplex]; exact h2, ?_⟩
  subst h3
  refine ⟨rfl, rfl, rfl, fun hrefl => ?_⟩
  have he := Matrix.operator_eq_self hrefl R2
  refine ⟨he, ?_⟩
  unfold Matrix.operator_ne
  rw [he]
  rfl

/-- C11 on the 2x3 matrix `[1,2,3,4,5,6]` (the 0x0 matrix is transposed to itself too). -/
theorem trans_round_trip_witness :
    (Matrix.mk 0 0 ([] : List Int)).trans = .ok (Matrix.mk 0 0 []) ∧
    ∃ R R2 : Matrix Int, (Matrix.mk 2 3 [(1 : Int), 2, 3, 4, 5, 6]).trans = .ok R ∧
      R.trans = .ok R2 ∧
      R2._rows = 2 ∧ R2._cols = 3 ∧ R2._matrix = [1, 2, 3, 4, 5, 6] ∧
      ((∀ a : Int, (a == a) = true) →
        R2.operator_eq (Matrix.mk 2 3 [(1 : Int), 2, 3, 4, 5, 6]) = true ∧
        R2.operator_ne (Matrix.mk 2 3 [(1 : Int), 2, 3, 4, 5, 6]) = false) :=
  ⟨rfl, trans_round_trip (Matrix.mk 2 3 [(1 : Int), 2, 3, 4, 5, 6]) (by decide) (by decide)⟩

/-- C12: `trace()` throws `NoSquareException` exactly when `rows` differs from `cols`; on a
square matrix that satisfies the storage invariants it returns the sum of the diagonal
elements `M(i,i)`, `i < rows`, accumulated from `T(0)` (so `T(0)` for the 0x0 matrix). -/
theorem trace_spec [Zero T] [Add T] (M : Matrix T) :
    (M.trace = .error .NoSquareException ↔ M._rows ≠ M._cols) ∧
    (M.machine → M.storageInv → M._rows = M._cols →
      M.trace = .ok (diagSum M) ∧
      ∀ i, i < M._rows → M.operator_call i i = .ok (M.cell i i)) := by
  refine ⟨⟨?_, ?_⟩, ?_⟩
  · intro h hsq
    exact Matrix.trace_ne_noSquare M hsq h
  · intro hne
    unfold Matrix.trace
    rw [if_pos hne]
  · intro hMm hMs hsq
    exact ⟨Matrix.trace_ok M hMm hMs hsq,
      fun i hi => Matrix.operator_call_in_range hMm hMs hi (hsq ▸ hi)⟩

/-- C12 on the scenario of the specification: the trace of the 2x2 matrix `[1,2,3,4]` is 5;
that of the 0x0 matrix is 0, and a 2x3 matrix has none. -/
theorem trace_spec_witness :
    (Matrix.mk 2 2 [(1 : Int), 2, 3, 4]).trace = .ok 5 ∧
    (Matrix.mk 0 0 ([] : List Int)).trace = .ok 0 ∧
    (Matrix.mk 2 3 [(1 : Int), 2, 3, 4, 5, 6]).trace = .error .NoSquareException ∧
    ((Matrix.mk 2 2 [(1 : Int), 2, 3, 4]).trace =
        .ok (diagSum (Matrix.mk 2 2 [(1 : Int), 2, 3, 4])) ∧
      ∀ i, i < 2 → (Matrix.mk 2 2 [(1 : Int), 2, 3, 4]).operator_call i i =
        .ok ((Matrix.mk 2 2 [(1 : Int), 2, 3, 4]).cell i i)) :=
  ⟨rfl, rfl, (trace_spec (Matrix.mk 2 3 [(1 : Int), 2, 3, 4, 5, 6])).1.mpr (by decide),
    (trace_spec (Matrix.mk 2 2 [(1 : Int), 2, 3, 4])).2 (by decide) (by decide) rfl⟩

/-- C14: for a matrix `M` that satisfies the storage invariants, with `Z` the matrix built by
`Matrix(M.rows, M.cols)`, `M + Z` succeeds in both modes and has the dimensions and the storage
of `M`, so that `M + Z == M`, for an element type in which `x + 0 = x` and an element compares
equal with itself.  `M` is an object of the program (`machine`). -/
theorem additive_identity [Zero T] [Add T] [BEq T] (isParallel : Bool) (M : Matrix T)
    (hMm : M.machine) (hMs : M.storageInv)
    (hadd : ∀ x : T, x + 0 = x) (hrefl : ∀ a : T, (a == a) = true) :
    ∃ Z R : Matrix T, Matrix.ctorSized M._rows M._cols = .ok Z ∧
      M.operator_plus isParallel Z = .ok R ∧
      R._rows = M._rows ∧ R._cols = M._cols ∧ R._matrix = M._matrix ∧
      R.operator_eq M = true := by
  obtain ⟨Z, hZ, hZm, hZs, z1, z2, z3⟩ :=
    Matrix.ctorSized_wf (T := T) hMm.1 hMm.2.1 hMs.1 (Matrix.count_lt hMm hMs)
  obtain ⟨R, hR, hRm, hRs, r1, r2, r3⟩ :=
    Matrix.operator_plus_wf isParallel M Z hMm hMs hZm hZs z1.symm z2.symm
  have hRM : R = M := by
    apply Matrix.eq_of_cells hRm hRs hMm hMs r1 r2
    intro i j hi hj
    rw [r1] at hi
    rw [r2] at hj
    rw [r3 i j hi hj, z3 i j hi hj, hadd]
  subst hRM
  exact ⟨Z, R, hZ, hR, rfl, rfl, rfl, Matrix.operator_eq_self hrefl R⟩

/-- C14 on the 2x2 matrix `[1,2,3,4]`, in parallel mode. -/
theorem additive_identity_witness :
    ∃ Z R : Matrix Int, Matrix.ctorSized 2 2 = .ok Z ∧
      (Matrix.mk 2 2 [(1 : Int), 2, 3, 4]).operator_plus true Z = .ok R ∧
      R._rows = 2 ∧ R._cols = 2 ∧ R._matrix = [1, 2, 3, 4] ∧
      R.operator_eq (Matrix.mk 2 2 [(1 : Int), 2, 3, 4]) = true :=
  additive_identity true (Matrix.mk 2 2 [(1 : Int), 2, 3, 4]) (by decide) (by decide)
    (fun x => Int.add_zero x) (fun a => beq_self_eq_true a)

/-- C15: for a matrix `M` that satisfies the storage invariants, `M - M` succeeds and is the
matrix `Z` built by `Matrix(M.rows, M.cols)`, same dimensions and same storage, so that
`M - M == Z`, for an element type in which `x - x = 0` and an element compares equal with
itself.  `M` is an object of the program (`machine`). -/
theorem self_subtraction [Zero T] [Sub T] [BEq T] (M : Matrix T)
    (hMm : M.machine) (hMs : M.storageInv)
    (hsub : ∀ x : T, x - x = 0) (hrefl : ∀ a : T, (a == a) = true) :
    ∃ Z R : Matrix T, Matrix.ctorSized M._rows M._cols = .ok Z ∧
      M.operator_minus M = .ok R ∧
      R._rows = Z._rows ∧ R._cols = Z._cols ∧ R._matrix = Z._matrix ∧
      R.operator_eq Z = true := by
  obtain ⟨Z, hZ, hZm, hZs, z1, z2, z3⟩ :=
    Matrix.ctorSized_wf (T := T) hMm.1 hMm.2.1 hMs.1 (Matrix.count_lt hMm hMs)
  obtain ⟨R, hR, hRm, hRs, r1, r2, r3⟩ :=
    Matrix.operator_minus_wf M M hMm hMs hMm hMs rfl rfl
  have hRZ : R = Z := by
    apply Matrix.eq_of_cells hRm hRs hZm hZs (r1.trans z1.symm) (r2.trans z2.symm)
    intro i j hi hj
    rw [r1] at hi
    rw [r2] at hj
    rw [r3 i j hi hj, z3 i j hi hj, hsub]
  subst hRZ
  exact ⟨R, R, hZ, hR, rfl, rfl, rfl, Matrix.operator_eq_self hrefl R⟩

/-- C15 on the 2x2 matrix `[1,2,3,4]`. -/
theorem self_subtraction_witness :
    ∃ Z R : Matrix Int, Matrix.ctorSized 2 2 = .ok Z ∧
      (Matrix.mk 2 2 [(1 : Int), 2, 3, 4]).operator_minus
        (Matrix.mk 2 2 [(1 : Int), 2, 3, 4]) = .ok R ∧
      R._rows = Z._rows ∧ R._cols = Z._cols ∧ R._matrix = Z._matrix ∧
      R.operator_eq Z = true :=
  self_subtraction (Matrix.mk 2 2 [(1 : Int), 2, 3, 4]) (by decide) (by decide)
    (fun x => Int.sub_self x) (fun a => beq_self_eq_true a)

/-- C16: when the comparison of elements is reflexive and symmetric, `M == M` for every
matrix, `A == B` is `B == A`, and two matrices that hold different elements at some storage
position (whatever their dimensions, equal or not) have `A == B` false and `A != B` true. -/
theorem operator_eq_equivalence [BEq T]
    (hrefl : ∀ a : T, (a == a) = true) (hsymm : ∀ a b : T, (a == b) = (b == a))
    (A B : Matrix T) :
    A.operator_eq A = true ∧
    (A.operator_eq B = true ↔ B.operator_eq A = true) ∧
    (∀ (p : Nat) (x y : T), A._matrix[p]? = some x → B._matrix[p]? = some y →
      (x == y) = false → A.operator_eq B = false ∧ A.operator_ne B = true) := by
  refine ⟨Matrix.operator_eq_self hrefl A, ?_, ?_⟩
  · rw [Matrix.operator_eq_eq, Matrix.operator_eq_eq, vec_beq_symm hsymm]
  · intro p x y hx hy hxy
    rw [Matrix.operator_ne_eq, Matrix.operator_eq_eq, vec_beq_differ _ _ p x y hx hy hxy]
    exact ⟨rfl, rfl⟩

/-- C16 on the 2x2 matrices `[1,2,3,4]` and `[1,2,7,4]`, which differ at position 2. -/
theorem operator_eq_equivalence_witness :
    (Matrix.mk 2 2 [(1 : Int), 2, 3, 4]).operator_eq (Matrix.mk 2 2 [(1 : Int), 2, 3, 4]) =
      true ∧
    ((Matrix.mk 2 2 [(1 : Int), 2, 3, 4]).operator_eq (Matrix.mk 2 2 [1, 2, 7, 4]) = true ↔
      (Matrix.mk 2 2 [(1 : Int), 2, 7, 4]).operator_eq (Matrix.mk 2 2 [1, 2, 3, 4]) = true) ∧
    (Matrix.mk 2 2 [(1 : Int), 2, 3, 4]).operator_eq (Matrix.mk 2 2 [1, 2, 7, 4]) = false ∧
    (Matrix.mk 2 2 [(1 : Int), 2, 3, 4]).operator_ne (Matrix.mk 2 2 [1, 2, 7, 4]) = true :=
  (fun h => ⟨h.1, h.2.1, h.2.2 2 3 7 rfl rfl (by decide)⟩)
    (operator_eq_equivalence (fun a : Int => beq_self_eq_true a)
      (fun a b : Int => by rw [Bool.eq_iff_iff, beq_iff_eq, beq_iff_eq]; exact eq_comm)
      (Matrix.mk 2 2 [(1 : Int), 2, 3, 4]) (Matrix.mk 2 2 [1, 2, 7, 4]))

/-- C17: the specialised `trans()` of the complex element type, `conj` being the conjugation
of that type, returns on a matrix that satisfies the storage invariants a matrix with swapped
dimensions whose element `(i, j)` is `conj(M(j, i))`; when `conj` is an involution,
`trans(trans(M))` has the dimensions and the storage of `M`, hence `trans(trans(M)) == M`, an
element comparing equal with itself.  `M` is an object of the program (`machine`). -/
theorem hermitian_spec [Zero T] [BEq T] (conj : T → T) (M : Matrix T)
    (hMm : M.machine) (hMs : M.storageInv) :
    ∃ R : Matrix T, M.transComplex conj = .ok R ∧ R._rows = M._cols ∧ R._cols = M._rows ∧
      (∀ i j, i < M._cols → j < M._rows →
        R.operator_call i j = .ok (conj (M.cell j i)) ∧
        M.operator_call j i = .ok (M.cell j i)) ∧
      ((∀ z : T, conj (conj z) = z) →
        ∃ R2 : Matrix T, R.transComplex conj = .ok R2 ∧
          R2._rows = M._rows ∧ R2._cols = M._cols ∧ R2._matrix = M._matrix ∧
          ((∀ a : T, (a == a) = true) → R2.operator_eq M = true)) := by
  obtain ⟨R, hrun, h1, h2, _, h4⟩ := Matrix.transComplex_cells conj M hMm hMs
  have hfit : M._cols * M._rows < UINT_RANGE := by
    rw [Nat.mul_comm]; exact Matrix.count_lt hMm hMs
  refine ⟨R, hrun, h1, h2, fun i j hi hj => ⟨?_, ?_⟩, ?_⟩
  · exact Matrix.operator_call_of_getElem? h1 h2 hfit hi hj (h4 i j hi hj)
  · exact Matrix.operator_call_in_range hMm hMs hj hi
  · intro hconj
    obtain ⟨R1, R2, g1, g2, g3⟩ := Matrix.transComplex_involution conj hconj M hMm hMs
    rw [hrun] at g1
    injection g1 with g1
    subst g1
    subst g3
    exact ⟨R2, g2, rfl, rfl, rfl, fun hrefl => Matrix.operator_eq_self hrefl R2⟩

/-- C17 on the 1x2 matrix `[1+2i, 3+4i]` of pairs of integers, `conj` negating the second
component: its conjugate transpose is the 2x1 matrix `[1-2i, 3-4i]`. -/
theorem hermitian_spec_witness :
    (Matrix.mk 1 2 [((1 : Int), (2 : Int)), (3, 4)]).transComplex (fun z => (z.1, -z.2)) =
      .ok (Matrix.mk 2 1 [(1, -2), (3, -4)]) ∧
    ∃ R : Matrix (Int × Int),
      (Matrix.mk 1 2 [((1 : Int), (2 : Int)), (3, 4)]).transComplex (fun z => (z.1, -z.2)) =
        .ok R ∧ R._rows = 2 ∧ R._cols = 1 ∧
      (∀ i j, i < 2 → j < 1 →
        R.operator_call i j =
          .ok ((fun z : Int × Int => (z.1, -z.2))
            ((Matrix.mk 1 2 [((1 : Int), (2 : Int)), (3, 4)]).cell j i)) ∧
        (Matrix.mk 1 2 [((1 : Int), (2 : Int)), (3, 4)]).operator_call j i =
          .ok ((Matrix.mk 1 2 [((1 : Int), (2 : Int)), (3, 4)]).cell j i)) ∧
      ((∀ z : Int × Int, (fun z : Int × Int => (z.1, -z.2)) ((fun z : Int × Int => (z.1, -z.2)) z)
          = z) →
        ∃ R2 : Matrix (Int × Int), R.transComplex (fun z => (z.1, -z.2)) = .ok R2 ∧
          R2._rows = 1 ∧ R2._cols = 2 ∧ R2._matrix = [(1, 2), (3, 4)] ∧
          ((∀ a : Int × Int, (a == a) = true) →
            R2.operator_eq (Matrix.mk 1 2 [((1 : Int), (2 : Int)), (3, 4)]) = true)) :=
  ⟨rfl, hermitian_spec (fun z => (z.1, -z.2)) (Matrix.mk 1 2 [((1 : Int), (2 : Int)), (3, 4)])
    (by decide) (by decide)⟩

/-- C18: the flag starts false; `setParallel(b)` leaves the flag equal to `b`; when `b`
differs from the current flag it sends to `std::cout` exactly the line
"Generic Matrix mode changed to parallel mode." (`b` true) or
"Generic Matrix mode changed to non-parallel mode." (`b` false), and nothing when `b` is the
current flag; so the second of two calls `setParallel(b)` in a row sends nothing. -/
theorem setParallel_spec (f b : Bool) (out : String) :
    ModeState.initial._isParallel = false ∧
    (Matrix.setParallel b (ModeState.mk f out))._isParallel = b ∧
    (b ≠ f → (Matrix.setParallel b (ModeState.mk f out)).cout =
      out ++ (if b then "Generic Matrix mode changed to parallel mode.\n"
              else "Generic Matrix mode changed to non-parallel mode.\n")) ∧
    (b = f → (Matrix.setParallel b (ModeState.mk f out)).cout = out) ∧
    (Matrix.setParallel b (Matrix.setParallel b (ModeState.mk f out))).cout =
      (Matrix.setParallel b (ModeState.mk f out)).cout := by
  have hflag : ∀ st : ModeState, (Matrix.setParallel b st)._isParallel = b := by
    intro st
    unfold Matrix.setParallel
    split <;> rfl
  have hsame : ∀ st : ModeState, st._isParallel = b →
      (Matrix.setParallel b st).cout = st.cout := by
    intro st hst
    unfold Matrix.setParallel
    rw [hst, if_neg (by simp)]
  refine ⟨rfl, hflag _, ?_, ?_, hsame _ (hflag _)⟩
  · intro hne
    unfold Matrix.setParallel
    rw [if_pos (by simpa using hne)]
    cases b
    · show ((out ++ "Generic Matrix mode changed to ") ++ "non-parallel") ++ " mode." ++ "\n"
        = out ++ "Generic Matrix mode changed to non-parallel mode.\n"
      rw [String.append_assoc, String.append_assoc, String.append_assoc]
      rfl
    · show ((out ++ "Generic Matrix mode changed to ") ++ "parallel") ++ " mode." ++ "\n"
        = out ++ "Generic Matrix mode changed to parallel mode.\n"
      rw [String.append_assoc, String.append_assoc, String.append_assoc]
      rfl
  · intro he
    exact hsame _ he.symm

/-- C18 from the initial state: the first `setParallel(true)` sends the line, the second
nothing, and `setParallel(false)` on the initial state sends nothing. -/
theorem setParallel_spec_witness :
    (Matrix.setParallel true ModeState.initial).cout =
      "Generic Matrix mode changed to parallel mode.\n" ∧
    (Matrix.setParallel true (Matrix.setParallel true ModeState.initial)).cout =
      "Generic Matrix mode changed to parallel mode.\n" ∧
    (Matrix.setParallel false (Matrix.setParallel true ModeState.initial)).cout =
      "Generic Matrix mode changed to parallel mode.\nGeneric Matrix mode changed to non-parallel mode.\n" ∧
    (Matrix.setParallel true (ModeState.mk false "")).cout =
      "" ++ (if true then "Generic Matrix mode changed to parallel mode.\n"
              else "Generic Matrix mode changed to non-parallel mode.\n") ∧
    (Matrix.setParallel false (ModeState.mk false "")).cout = "" :=
  ⟨rfl, rfl, rfl, (setParallel_spec false true "").2.2.1 (by decide),
    (setParallel_spec false false "").2.2.2.1 rfl⟩

/-- C19 (the code at the failing input): the 2x2 matrix `[1,2,3,4]` satisfies the storage
invariants and the bounds check of `operator()` accepts `(2, 0)`, but the linear index
`cols * 2 + 0 = 4` is not below the storage length 4: both overloads index the vector out of
range. -/
theorem accepted_access_outside_storage :
    (Matrix.mk 2 2 [(1 : Int), 2, 3, 4]).storageInv ∧
    (Matrix.mk 2 2 [(1 : Int), 2, 3, 4]).machine ∧
    ¬ (2 > (Matrix.mk 2 2 [(1 : Int), 2, 3, 4])._rows ∨
        0 > (Matrix.mk 2 2 [(1 : Int), 2, 3, 4])._cols) ∧
    (Matrix.mk 2 2 [(1 : Int), 2, 3, 4]).operator_call 2 0 ≠ .error .OutOfMatrixException ∧
    ¬ ((Matrix.mk 2 2 [(1 : Int), 2, 3, 4])._cols * 2 + 0 <
        (Matrix.mk 2 2 [(1 : Int), 2, 3, 4])._matrix.length) ∧
    (Matrix.mk 2 2 [(1 : Int), 2, 3, 4]).operator_call 2 0 = .error .UndefinedBehaviour ∧
    (Matrix.mk 2 2 [(1 : Int), 2, 3, 4]).operator_call_ref 2 0 = .error .UndefinedBehaviour :=
  ⟨by decide, by decide, by decide, fun h => (by cases h), by decide, rfl, rfl⟩

/-- C13 as stated fails: the sized constructor succeeds on `(65536, 65536)` and the data
constructor on `(65536, 65536, {})`, and the matrix they build has an empty storage, not one
of `rows * cols` elements. -/
theorem constructors_break_invariant :
    (Matrix.ctorSized 65536 65536 : Result (Matrix Int)) = .ok (Matrix.mk 65536 65536 []) ∧
    Matrix.ctorCells 65536 65536 ([] : List Int) = .ok (Matrix.mk 65536 65536 []) ∧
    ¬ (Matrix.mk 65536 65536 ([] : List Int)).storageInv := by
  refine ⟨?_, rfl, by decide⟩
  rw [Matrix.ctorSized_ok 65536 65536 (by decide)]
  rfl

/-- C13, amended: the default constructor yields the 1x1 matrix whose element is `T(0)`; a
successful sized or data constructor yields a matrix with `rows == 0` iff `cols == 0` and a
storage of `rows * cols mod 2^32` elements, which satisfies the storage invariants when
`rows * cols` is below `2^32`; the copy constructor and copy assignment of a matrix that
satisfies the invariants, and every matrix returned by `operator+`, `operator-`, `operator*`
(in either mode) or `trans()` on operands that satisfy them, satisfy the invariants
(`rows == 0` iff `cols == 0`, storage length `rows * cols`) and are again objects of the
program (`machine`). -/
theorem representation_invariant [Zero T] [Add T] [Sub T] [Mul T] (isParallel : Bool)
    (A B : Matrix T)
    (hAm : A.machine) (hAs : A.storageInv) (hBm : B.machine) (hBs : B.storageInv) :
    ((Matrix.ctorDefault : Matrix T) = Matrix.mk 1 1 [0] ∧
      (Matrix.ctorDefault : Matrix T).storageInv ∧ (Matrix.ctorDefault : Matrix T).machine) ∧
    (∀ (rows cols : Nat) (M : Matrix T), Matrix.ctorSized rows cols = .ok M →
      (M._rows = 0 ↔ M._cols = 0) ∧
      M._matrix.length = (M._rows * M._cols) % UINT_RANGE ∧
      (rows * cols < UINT_RANGE → M.storageInv) ∧
      (rows < UINT_RANGE → cols < UINT_RANGE → M.machine)) ∧
    (∀ (rows cols : Nat) (cells : List T) (M : Matrix T),
      Matrix.ctorCells rows cols cells = .ok M →
      (M._rows = 0 ↔ M._cols = 0) ∧
      M._matrix.length = (M._rows * M._cols) % UINT_RANGE ∧
      (rows * cols < UINT_RANGE → M.storageInv) ∧
      (rows < UINT_RANGE → cols < UINT_RANGE → M.machine)) ∧
    ((Matrix.ctorCopy A).storageInv ∧ (Matrix.ctorCopy A).machine) ∧
    (∀ X : Matrix T, (X.operator_assign A).storageInv ∧ (X.operator_assign A).machine) ∧
    (∀ R : Matrix T, A.operator_plus isParallel B = .ok R → R.storageInv ∧ R.machine) ∧
    (∀ R : Matrix T, A.operator_minus B = .ok R → R.storageInv ∧ R.machine) ∧
    (∀ R : Matrix T, A.operator_mul isParallel B = .ok R → R.storageInv ∧ R.machine) ∧
    (∀ R : Matrix T, A.trans = .ok R → R.storageInv ∧ R.machine) := by
  have hU1 : 1 < UINT_RANGE := by rw [uint_range_eq]; decide
  refine ⟨⟨rfl, ⟨(Iff.rfl : (1 = 0) ↔ (1 = 0)), rfl⟩, ⟨hU1, hU1, ?_⟩⟩, ?_, ?_, ⟨hAs, hAm⟩,
    fun _ => ⟨hAs, hAm⟩,
    ?_, ?_, ?_, ?_⟩
  · show 1 = (1 * 1) % UINT_RANGE
    rw [Nat.mod_eq_of_lt (by simpa using hU1)]
  · intro rows cols M h
    obtain ⟨h1, h2, h3, h4, _⟩ := Matrix.ctorSized_ok_props h
    refine ⟨by rw [h1, h2]; exact h3, by rw [h1, h2]; exact h4, ?_,
      fun hr hc => Matrix.ctorSized_machine hr hc h⟩
    intro hfit
    exact ⟨by rw [h1, h2]; exact h3, by rw [h1, h2, h4, Nat.mod_eq_of_lt hfit]⟩
  · intro rows cols cells M h
    obtain ⟨h1, h2, h3, h4, _⟩ := Matrix.ctorCells_ok_props h
    refine ⟨by rw [h1, h2]; exact h3, by rw [h1, h2]; exact h4, ?_,
      fun hr hc => Matrix.ctorCells_machine hr hc h⟩
    intro hfit
    exact ⟨by rw [h1, h2]; exact h3, by rw [h1, h2, h4, Nat.mod_eq_of_lt hfit]⟩
  · intro R h
    obtain ⟨hr, hc⟩ := Matrix.operator_plus_ok_dims h
    obtain ⟨R1, hrun, w1, w2, _⟩ :=
      Matrix.operator_plus_wf isParallel A B hAm hAs hBm hBs hr hc
    rw [hrun] at h
    injection h with h
    subst h
    exact ⟨w2, w1⟩
  · intro R h
    obtain ⟨hr, hc⟩ := Matrix.operator_minus_ok_dims h
    obtain ⟨R1, hrun, w1, w2, _⟩ := Matrix.operator_minus_wf A B hAm hAs hBm hBs hr hc
    rw [hrun] at h
    injection h with h
    subst h
    exact ⟨w2, w1⟩
  · intro R h
    obtain ⟨R1, hrun, w1, w2, _⟩ := Matrix.operator_mul_wf isParallel A B hAm hAs hBm hBs
      (Matrix.operator_mul_ok_dims h) (Matrix.operator_mul_ok_fit isParallel A B R h)
    rw [hrun] at h
    injection h with h
    subst h
    exact ⟨w2, w1⟩
  · intro R h
    obtain ⟨R1, hrun, w1, w2, _⟩ := Matrix.transComplex_wf id A hAm hAs
    rw [Matrix.trans_eq_transComplex, hrun] at h
    injection h with h
    subst h
    exact ⟨w2, w1⟩

/-- C13, amended, on the 2x2 matrices `[1,2,3,4]` and `[5,6,7,8]`, in parallel mode: the
sum, the difference, the product and the transpose satisfy the invariants. -/
theorem representation_invariant_witness :
    (∃ R : Matrix Int, (Matrix.mk 2 2 [(1 : Int), 2, 3, 4]).operator_plus true
        (Matrix.mk 2 2 [5, 6, 7, 8]) = .ok R ∧ R.storageInv ∧ R.machine) ∧
    (∃ R : Matrix Int, (Matrix.mk 2 2 [(1 : Int), 2, 3, 4]).operator_minus
        (Matrix.mk 2 2 [5, 6, 7, 8]) = .ok R ∧ R.storageInv ∧ R.machine) ∧
    (∃ R : Matrix Int, (Matrix.mk 2 2 [(1 : Int), 2, 3, 4]).operator_mul true
        (Matrix.mk 2 2 [5, 6, 7, 8]) = .ok R ∧ R.storageInv ∧ R.machine) ∧
    (∃ R : Matrix Int, (Matrix.mk 2 2 [(1 : Int), 2, 3, 4]).trans = .ok R ∧
        R.storageInv ∧ R.machine) ∧
    (∃ M : Matrix Int, Matrix.ctorSized 2 3 = .ok M ∧ M.storageInv ∧ M.machine) :=
  (fun h =>
    ⟨⟨_, rfl, h.2.2.2.2.2.1 _ rfl⟩, ⟨_, rfl, h.2.2.2.2.2.2.1 _ rfl⟩,
      ⟨_, rfl, h.2.2.2.2.2.2.2.1 _ rfl⟩, ⟨_, rfl, h.2.2.2.2.2.2.2.2 _ rfl⟩,
      ⟨Matrix.mk 2 3 [0, 0, 0, 0, 0, 0], rfl,
        (h.2.1 2 3 (Matrix.mk 2 3 [0, 0, 0, 0, 0, 0]) rfl).2.2.1 (by decide),
        (h.2.1 2 3 (Matrix.mk 2 3 [0, 0, 0, 0, 0, 0]) rfl).2.2.2 (by decide) (by decide)⟩⟩)
    (representation_invariant true (Matrix.mk 2 2 [(1 : Int), 2, 3, 4])
      (Matrix.mk 2 2 [5, 6, 7, 8]) (by decide) (by decide) (by decide) (by decide))

/-- C20: a row worker `_addParallel(other, result, r)` or `_multParallel(other, result, r)`
that returns, `result` satisfying the storage invariants and `r < result.rows`, has changed no
storage position of `result` outside `r * cols .. r * cols + cols - 1`, nor its dimensions
(the operands are arguments that the worker does not return: they are as before); on the
operands and result matrices of `operator+` and `operator*` every worker returns; the
positions of distinct rows are disjoint; and the workers run in any order, each to completion,
return the matrix that the loop over the rows in increasing order returns. -/
theorem row_ownership [Zero T] [Add T] [Mul T] (A B C nmA nmM : Matrix T)
    (hAm : A.machine) (hAs : A.storageInv) (hBm : B.machine) (hBs : B.storageInv)
    (hr : A._rows = B._rows) (hc : A._cols = B._cols)
    (hCm : C.machine) (hCs : C.storageInv)
    (hdim : A._cols = C._rows) (hfit : A._rows * C._cols < UINT_RANGE)
    (ha1 : nmA._rows = A._rows) (ha2 : nmA._cols = A._cols)
    (ha3 : nmA._matrix.length = A._rows * A._cols)
    (hm1 : nmM._rows = A._rows) (hm2 : nmM._cols = C._cols)
    (hm3 : nmM._matrix.length = A._rows * C._cols) :
    (∀ (X Y nm nm2 : Matrix T) (row : Nat), nm.machine → nm.storageInv → row < nm._rows →
      (X._addParallel Y nm row = .ok nm2 → RowFrame row nm nm2) ∧
      (X._multParallel Y nm row = .ok nm2 → RowFrame row nm nm2)) ∧
    (∀ row, row < A._rows →
      ∃ s : Matrix T, A._addParallel B nmA row = .ok s ∧ RowFrame row nmA s) ∧
    (∀ row, row < A._rows →
      ∃ s : Matrix T, A._multParallel C nmM row = .ok s ∧ RowFrame row nmM s) ∧
    (∀ c r1 r2 p : Nat, r1 ≠ r2 →
      ¬ ((r1 * c ≤ p ∧ p < r1 * c + c) ∧ (r2 * c ≤ p ∧ p < r2 * c + c))) ∧
    (∀ order : List Nat, order.Perm (List.range A._rows) →
      runWorkers (fun row s => A._addParallel B s row) order nmA =
        forLoop A._rows (fun i s => A._addParallel B s i) nmA ∧
      runWorkers (fun row s => A._multParallel C s row) order nmM =
        forLoop A._rows (fun i s => A._multParallel C s i) nmM) := by
  refine ⟨?_, ?_, ?_, rows_disjoint, ?_⟩
  · intro X Y nm nm2 row hm hs hrow
    constructor
    · intro h
      exact row_worker_frame nm hm hs row hrow (addCell X Y row)
        (fun j s s2 hb => addCell_ok_assign hb) nm2 h
    · intro h
      exact row_worker_frame nm hm hs row hrow (mulCell X Y row)
        (fun j s s2 hb => mulCell_ok_assign hb) nm2 h
  · intro row hrow
    obtain ⟨s, h1, h2, _⟩ :=
      addParallel_worker A B hAm hAs hBm hBs hr hc row nmA hrow ha1 ha2 ha3
    exact ⟨s, h1, h2⟩
  · intro row hrow
    obtain ⟨s, h1, h2, _⟩ :=
      multParallel_worker A C hAm hAs hCm hCs hdim hfit row nmM hrow hm1 hm2 hm3
    exact ⟨s, h1, h2⟩
  · intro order hperm
    constructor
    · exact runWorkers_perm A._rows A._cols (fun i j => A.cell i j + B.cell i j)
        (fun row s => A._addParallel B s row)
        (fun row nm hrow h1 h2 h3 =>
          addParallel_worker A B hAm hAs hBm hBs hr hc row nm hrow h1 h2 h3)
        order hperm nmA ha1 ha2 ha3
    · exact runWorkers_perm A._rows C._cols (dotSum A C)
        (fun row s => A._multParallel C s row)
        (fun row nm hrow h1 h2 h3 =>
          multParallel_worker A C hAm hAs hCm hCs hdim hfit row nm hrow h1 h2 h3)
        order hperm nmM hm1 hm2 hm3

/-- C20 on the 2x2 matrices `[1,2,3,4]` and `[5,6,7,8]`: the worker of row 1 run before the
worker of row 0 gives the sum `[6,8,10,12]` and the product `[19,22,43,50]`, as the loop in
increasing order does. -/
theorem row_ownership_witness :
    runWorkers (fun row s => (Matrix.mk 2 2 [(1 : Int), 2, 3, 4])._addParallel
        (Matrix.mk 2 2 [5, 6, 7, 8]) s row) [1, 0] (Matrix.mk 2 2 [1, 2, 3, 4]) =
      .ok (Matrix.mk 2 2 [6, 8, 10, 12]) ∧
    runWorkers (fun row s => (Matrix.mk 2 2 [(1 : Int), 2, 3, 4])._multParallel
        (Matrix.mk 2 2 [5, 6, 7, 8]) s row) [1, 0] (Matrix.mk 2 2 [0, 0, 0, 0]) =
      .ok (Matrix.mk 2 2 [19, 22, 43, 50]) ∧
    (runWorkers (fun row s => (Matrix.mk 2 2 [(1 : Int), 2, 3, 4])._addParallel
        (Matrix.mk 2 2 [5, 6, 7, 8]) s row) [1, 0] (Matrix.mk 2 2 [1, 2, 3, 4]) =
      forLoop 2 (fun i s => (Matrix.mk 2 2 [(1 : Int), 2, 3, 4])._addParallel
        (Matrix.mk 2 2 [5, 6, 7, 8]) s i) (Matrix.mk 2 2 [1, 2, 3, 4]) ∧
    runWorkers (fun row s => (Matrix.mk 2 2 [(1 : Int), 2, 3, 4])._multParallel
        (Matrix.mk 2 2 [5, 6, 7, 8]) s row) [1, 0] (Matrix.mk 2 2 [0, 0, 0, 0]) =
      forLoop 2 (fun i s => (Matrix.mk 2 2 [(1 : Int), 2, 3, 4])._multParallel
        (Matrix.mk 2 2 [5, 6, 7, 8]) s i) (Matrix.mk 2 2 [0, 0, 0, 0])) :=
  ⟨rfl, rfl,
    (row_ownership (Matrix.mk 2 2 [(1 : Int), 2, 3, 4]) (Matrix.mk 2 2 [5, 6, 7, 8])
      (Matrix.mk 2 2 [5, 6, 7, 8]) (Matrix.mk 2 2 [1, 2, 3, 4]) (Matrix.mk 2 2 [0, 0, 0, 0])
      (by decide) (by decide) (by decide) (by decide) rfl rfl (by decide) (by decide) rfl
      (by decide) rfl rfl rfl rfl rfl rfl).2.2.2.2 [1, 0] (List.Perm.swap 0 1 [])⟩

/-- C21 as stated fails: the 131072x1 and the 1x32768 zero matrices satisfy the storage
invariants and have matching dimensions, but the result matrix of their product is built by
`Matrix(131072, 32768)` with an empty storage, so the storage index 0 that the first store
`newMatrix(0, 0) = cell` writes is not below the length of the storage, in either mode. -/
theorem operator_mul_store_outside_storage :
    (Matrix.mk 131072 1 (List.replicate 131072 (0 : Int))).storageInv ∧
    (Matrix.mk 1 32768 (List.replicate 32768 (0 : Int))).storageInv ∧
    (Matrix.mk 131072 1 (List.replicate 131072 (0 : Int)))._cols =
      (Matrix.mk 1 32768 (List.replicate 32768 (0 : Int)))._rows ∧
    (Matrix.ctorSized 131072 32768 : Result (Matrix Int)) =
      .ok (Matrix.mk 131072 32768 []) ∧
    ¬ ((32768 * 0 + 0) % UINT_RANGE < ([] : List Int).length) ∧
    (Matrix.mk 131072 1 (List.replicate 131072 (0 : Int))).operator_mul false
      (Matrix.mk 1 32768 (List.replicate 32768 (0 : Int))) = .error .UndefinedBehaviour ∧
    (Matrix.mk 131072 1 (List.replicate 131072 (0 : Int))).operator_mul true
      (Matrix.mk 1 32768 (List.replicate 32768 (0 : Int))) = .error .UndefinedBehaviour :=
  ⟨⟨by decide, List.length_replicate 131072 0⟩, ⟨by decide, List.length_replicate 32768 0⟩,
    rfl,
    (Matrix.ctorSized_ok 131072 32768 (by decide)).trans
      (congrArg (fun n => Except.ok (Matrix.mk 131072 32768 (List.replicate n (0 : Int))))
        (by decide : 131072 * 32768 % UINT_RANGE = 0)),
    by decide,
    Matrix.operator_mul_wrapped false _ _ rfl rfl (by decide) (by decide) (by decide)
      (Matrix.operator_call_zeros 131072 1 131072 (by decide) (by decide) (by decide)
        (by decide))
      (Matrix.operator_call_zeros 1 32768 32768 (by decide) (by decide) (by decide)
        (by decide)),
    Matrix.operator_mul_wrapped true _ _ rfl rfl (by decide) (by decide) (by decide)
      (Matrix.operator_call_zeros 131072 1 131072 (by decide) (by decide) (by decide)
        (by decide))
      (Matrix.operator_call_zeros 1 32768 32768 (by decide) (by decide) (by decide)
        (by decide))⟩

/-- C21, amended: for operands that satisfy the storage invariants, `operator*` with
`left.cols == right.rows` throws, in either mode, neither `IllegalMatrixException` (its
internal construction succeeds) nor `OutOfMatrixException`, and every index at which it reads
an operand is below the length of that operand's storage; when `left.rows * right.cols` is
below `2^32` it returns, every index at which it writes the result being below the length of
the result's storage.  `trans()`, and `trace()` on a square matrix, return: their internal
construction succeeds and every index they read or write is below the length of the storage
indexed. -/
theorem internal_errors_unreachable [Zero T] [Add T] [Mul T] (isParallel : Bool)
    (A B S : Matrix T)
    (hAm : A.machine) (hAs : A.storageInv) (hBm : B.machine) (hBs : B.storageInv)
    (hdim : A._cols = B._rows)
    (hSm : S.machine) (hSs : S.storageInv) (hsq : S._rows = S._cols) :
    (A.operator_mul isParallel B ≠ .error .IllegalMatrixException ∧
      A.operator_mul isParallel B ≠ .error .OutOfMatrixException ∧
      ∃ Z : Matrix T, Matrix.ctorSized A._rows B._cols = .ok Z) ∧
    (∀ i k, i < A._rows → k < A._cols →
      (A._cols * i + k) % UINT_RANGE < A._matrix.length ∧
      A.operator_call i k = .ok (A.cell i k)) ∧
    (∀ k j, k < B._rows → j < B._cols →
      (B._cols * k + j) % UINT_RANGE < B._matrix.length ∧
      B.operator_call k j = .ok (B.cell k j)) ∧
    (A._rows * B._cols < UINT_RANGE →
      (∃ R : Matrix T, A.operator_mul isParallel B = .ok R) ∧
      ∀ i j, i < A._rows → j < B._cols →
        (B._cols * i + j) % UINT_RANGE < (A._rows * B._cols) % UINT_RANGE) ∧
    ((∃ R : Matrix T, A.trans = .ok R) ∧
      (∃ Z : Matrix T, Matrix.ctorSized A._cols A._rows = .ok Z) ∧
      ∀ i j, i < A._cols → j < A._rows →
        (A._rows * i + j) % UINT_RANGE < (A._cols * A._rows) % UINT_RANGE ∧
        (A._cols * j + i) % UINT_RANGE < A._matrix.length) ∧
    ((∃ t : T, S.trace = .ok t) ∧
      ∀ i, i < S._rows → (S._cols * i + i) % UINT_RANGE < S._matrix.length) := by
  have hfitA := Matrix.count_lt hAm hAs
  have hfitB := Matrix.count_lt hBm hBs
  have hfitS := Matrix.count_lt hSm hSs
  have hz : A._rows = 0 ↔ B._cols = 0 := by rw [hAs.1, hdim, hBs.1]
  have hread : ∀ (M : Matrix T), M.machine → M.storageInv → ∀ i j, i < M._rows →
      j < M._cols → (M._cols * i + j) % UINT_RANGE < M._matrix.length := by
    intro M hMm hMs i j hi hj
    rw [index_mod (Matrix.count_lt hMm hMs) hi hj, hMs.2]
    exact index_lt hi hj
  refine ⟨⟨?_, ?_, _, Matrix.ctorSized_ok A._rows B._cols (by omega)⟩, ?_, ?_, ?_, ?_, ?_⟩
  · intro h
    cases Matrix.operator_mul_error_kind isParallel A B hAm hAs hBm hBs hdim _ h
  · intro h
    cases Matrix.operator_mul_error_kind isParallel A B hAm hAs hBm hBs hdim _ h
  · intro i k hi hk
    exact ⟨hread A hAm hAs i k hi hk, Matrix.operator_call_in_range hAm hAs hi hk⟩
  · intro k j hk hj
    exact ⟨hread B hBm hBs k j hk hj, Matrix.operator_call_in_range hBm hBs hk hj⟩
  · intro hfit
    obtain ⟨R, hR, _⟩ := Matrix.operator_mul_cells isParallel A B hAm hAs hBm hBs hdim hfit
    refine ⟨⟨R, hR⟩, ?_⟩
    intro i j hi hj
    rw [index_mod hfit hi hj, Nat.mod_eq_of_lt hfit]
    exact index_lt hi hj
  · have hfitT : A._cols * A._rows < UINT_RANGE := by rw [Nat.mul_comm]; exact hfitA
    obtain ⟨R, hR, _⟩ := Matrix.trans_cells A hAm hAs
    refine ⟨⟨R, hR⟩, ⟨_, Matrix.ctorSized_ok A._cols A._rows (by have := hAs.1; omega)⟩, ?_⟩
    intro i j hi hj
    refine ⟨?_, hread A hAm hAs j i hj hi⟩
    rw [index_mod hfitT hi hj, Nat.mod_eq_of_lt hfitT]
    exact index_lt hi hj
  · refine ⟨⟨_, Matrix.trace_ok S hSm hSs hsq⟩, ?_⟩
    intro i hi
    exact hread S hSm hSs i i hi (hsq ▸ hi)

/-- C21, amended, on the 2x3 matrix `[1,2,3,4,5,6]`, the 3x2 matrix `[7,8,9,10,11,12]` and
the 2x2 matrix `[1,2,3,4]`: the product, the transpose and the trace return. -/
theorem internal_errors_unreachable_witness :
    (∃ R : Matrix Int, (Matrix.mk 2 3 [(1 : Int), 2, 3, 4, 5, 6]).operator_mul true
        (Matrix.mk 3 2 [7, 8, 9, 10, 11, 12]) = .ok R) ∧
    (∃ R : Matrix Int, (Matrix.mk 2 3 [(1 : Int), 2, 3, 4, 5, 6]).trans = .ok R) ∧
    (∃ t : Int, (Matrix.mk 2 2 [(1 : Int), 2, 3, 4]).trace = .ok t) ∧
    (Matrix.mk 2 3 [(1 : Int), 2, 3, 4, 5, 6]).operator_mul true
        (Matrix.mk 3 2 [7, 8, 9, 10, 11, 12]) ≠ .error .IllegalMatrixException :=
  (fun h => ⟨(h.2.2.2.1 (by decide)).1, h.2.2.2.2.1.1, h.2.2.2.2.2.1, h.1.1⟩)
    (internal_errors_unreachable true (Matrix.mk 2 3 [(1 : Int), 2, 3, 4, 5, 6])
      (Matrix.mk 3 2 [7, 8, 9, 10, 11, 12]) (Matrix.mk 2 2 [1, 2, 3, 4])
      (by decide) (by decide) (by decide) (by decide) rfl (by decide) (by decide) rfl)

/-- C22 as stated fails: for the zero matrices `A` 1x65536, `B` 65536x1 and `C` 1x65536,
which satisfy the storage invariants with `A.cols = B.rows` and `B.cols = C.rows`, the product
`(A*B)*C` returns, but `B*C`, whose result is built by `Matrix(65536, 65536)` with an empty
storage, does not, in either mode: `A*(B*C)` has no value. -/
theorem operator_mul_assoc_count_wraps :
    (Matrix.mk 1 65536 (List.replicate 65536 (0 : Int))).storageInv ∧
    (Matrix.mk 65536 1 (List.replicate 65536 (0 : Int))).storageInv ∧
    (Matrix.mk 1 65536 (List.replicate 65536 (0 : Int)))._cols =
      (Matrix.mk 65536 1 (List.replicate 65536 (0 : Int)))._rows ∧
    (Matrix.mk 65536 1 (List.replicate 65536 (0 : Int)))._cols =
      (Matrix.mk 1 65536 (List.replicate 65536 (0 : Int)))._rows ∧
    (∃ AB R1 : Matrix Int,
      (Matrix.mk 1 65536 (List.replicate 65536 (0 : Int))).operator_mul false
        (Matrix.mk 65536 1 (List.replicate 65536 (0 : Int))) = .ok AB ∧
      AB.operator_mul false (Matrix.mk 1 65536 (List.replicate 65536 (0 : Int))) = .ok R1) ∧
    (Matrix.mk 65536 1 (List.replicate 65536 (0 : Int))).operator_mul false
      (Matrix.mk 1 65536 (List.replicate 65536 (0 : Int))) = .error .UndefinedBehaviour ∧
    (Matrix.mk 65536 1 (List.replicate 65536 (0 : Int))).operator_mul true
      (Matrix.mk 1 65536 (List.replicate 65536 (0 : Int))) = .error .UndefinedBehaviour ∧
    ¬ (∃ BC R2 : Matrix Int,
      (Matrix.mk 65536 1 (List.replicate 65536 (0 : Int))).operator_mul false
        (Matrix.mk 1 65536 (List.replicate 65536 (0 : Int))) = .ok BC ∧
      (Matrix.mk 1 65536 (List.replicate 65536 (0 : Int))).operator_mul false BC = .ok R2) := by
  have hAs : (Matrix.mk 1 65536 (List.replicate 65536 (0 : Int))).storageInv :=
    ⟨by decide, List.length_replicate 65536 0⟩
  have hBs : (Matrix.mk 65536 1 (List.replicate 65536 (0 : Int))).storageInv :=
    ⟨by decide, List.length_replicate 65536 0⟩
  have hAm : (Matrix.mk 1 65536 (List.replicate 65536 (0 : Int))).machine :=
    ⟨by decide, by decide, List.length_replicate 65536 0⟩
  have hBm : (Matrix.mk 65536 1 (List.replicate 65536 (0 : Int))).machine :=
    ⟨by decide, by decide, List.length_replicate 65536 0⟩
  have hBC : ∀ p : Bool, (Matrix.mk 65536 1 (List.replicate 65536 (0 : Int))).operator_mul p
      (Matrix.mk 1 65536 (List.replicate 65536 (0 : Int))) = .error .UndefinedBehaviour :=
    fun p => Matrix.operator_mul_wrapped p _ _ rfl rfl (by decide) (by decide) (by decide)
      (Matrix.operator_call_zeros 65536 1 65536 (by decide) (by decide) (by decide)
        (by decide))
      (Matrix.operator_call_zeros 1 65536 65536 (by decide) (by decide) (by decide)
        (by decide))
  refine ⟨hAs, hBs, rfl, rfl, ?_, hBC false, hBC true, ?_⟩
  · obtain ⟨AB, hAB, hABm, hABs, ab1, ab2, _⟩ :=
      Matrix.operator_mul_wf false _ _ hAm hAs hBm hBs rfl (by decide)
    obtain ⟨R1, hR1, _⟩ :=
      Matrix.operator_mul_wf false AB _ hABm hABs hAm hAs ab2
        (by rw [ab1]; decide)
    exact ⟨AB, R1, hAB, hR1⟩
  · rintro ⟨BC, R2, h, _⟩
    rw [hBC false] at h
    cases h

/-- C22, amended: for three matrices over a semiring that satisfy the storage invariants,
with `A.cols = B.rows` and `B.cols = C.rows`, and with the element counts `A.rows * B.cols`,
`B.rows * C.cols` and `A.rows * C.cols` of the intermediate and final results below `2^32`,
`(A*B)*C` and `A*(B*C)` both succeed, in either mode, and have the same dimensions and the
same elements, so that `(A*B)*C == A*(B*C)`, an element comparing equal with itself. -/
theorem operator_mul_assoc [Semiring T] [BEq T] (isParallel : Bool) (A B C : Matrix T)
    (hAm : A.machine) (hAs : A.storageInv) (hBm : B.machine) (hBs : B.storageInv)
    (hCm : C.machine) (hCs : C.storageInv)
    (h1 : A._cols = B._rows) (h2 : B._cols = C._rows)
    (fit1 : A._rows * B._cols < UINT_RANGE) (fit2 : B._rows * C._cols < UINT_RANGE)
    (fit3 : A._rows * C._cols < UINT_RANGE) :
    ∃ AB BC R1 R2 : Matrix T,
      A.operator_mul isParallel B = .ok AB ∧ AB.operator_mul isParallel C = .ok R1 ∧
      B.operator_mul isParallel C = .ok BC ∧ A.operator_mul isParallel BC = .ok R2 ∧
      R1._rows = R2._rows ∧ R1._cols = R2._cols ∧ R1._matrix = R2._matrix ∧
      ((∀ a : T, (a == a) = true) → R1.operator_eq R2 = true ∧ R1.operator_ne R2 = false) := by
  obtain ⟨AB, BC, R1, R2, g1, g2, g3, g4, _, _, g7⟩ :=
    Matrix.operator_mul_assoc_wf isParallel A B C hAm hAs hBm hBs hCm hCs h1 h2 fit1 fit2 fit3
  subst g7
  refine ⟨AB, BC, R1, R1, g1, g2, g3, g4, rfl, rfl, rfl, fun hrefl => ?_⟩
  have he := Matrix.operator_eq_self hrefl R1
  refine ⟨he, ?_⟩
  unfold Matrix.operator_ne
  rw [he]
  rfl

/-- C22, amended, on the 2x2 integer matrices `[1,2,3,4]`, `[0,1,1,0]` and `[2,0,1,3]`, in
parallel mode: both bracketings give `[5,3,11,9]`. -/
theorem operator_mul_assoc_witness :
    ∃ AB BC R1 R2 : Matrix Int,
      (Matrix.mk 2 2 [(1 : Int), 2, 3, 4]).operator_mul true (Matrix.mk 2 2 [0, 1, 1, 0]) =
        .ok AB ∧
      AB.operator_mul true (Matrix.mk 2 2 [2, 0, 1, 3]) = .ok R1 ∧
      (Matrix.mk 2 2 [(0 : Int), 1, 1, 0]).operator_mul true (Matrix.mk 2 2 [2, 0, 1, 3]) =
        .ok BC ∧
      (Matrix.mk 2 2 [(1 : Int), 2, 3, 4]).operator_mul true BC = .ok R2 ∧
      R1._rows = R2._rows ∧ R1._cols = R2._cols ∧ R1._matrix = R2._matrix ∧
      ((∀ a : Int, (a == a) = true) →
        R1.operator_eq R2 = true ∧ R1.operator_ne R2 = false) :=
  operator_mul_assoc true (Matrix.mk 2 2 [(1 : Int), 2, 3, 4]) (Matrix.mk 2 2 [0, 1, 1, 0])
    (Matrix.mk 2 2 [2, 0, 1, 3]) (by decide) (by decide) (by decide) (by decide) (by decide)
    (by decide) rfl rfl (by decide) (by decide) (by decide)

end Claims

end CppEx3
